import Mathlib

/-!
Metro: route traversal and the tick scheduler

A shallow embedding of `metro.go` / `errors.go` (package `metro`).

* Go slices are Lean lists; slice lengths and the indices `sIDX`, `nextIDX`,
  `trainIDX` are naturals (a slice never has `2^63` elements, so the 64-bit
  `int` arithmetic `sIDX + 1` cannot wrap).
* `RouteDirection` is a Go `int`; only equality with the two constants is ever
  used, so it is an unbounded integer here.
* `map[RouteDirection][]string` is a function into `Option`: `none` is an absent
  key.  Reading an absent key in Go yields the nil slice, of length `0`.
* A Go `(T, error)` result is a three-way outcome: a value, one of the sentinel
  errors, or a run-time panic (index out of range).
* `Metro.Tick` mutates `m.Trains` in place and returns an `error`; here it returns
  the aggregate after the call together with what the call returned.
* The mutex of `Metro` only serialises callers and is not part of the state.
-/

namespace metro

/-! ## errors.go -/

/-- The three sentinel errors of `errors.go`. -/
inductive Error where
  | ErrNotFound
  | ErrWrongLine
  | ErrInvalidRoute
  deriving DecidableEq, Repr

/-- Result of a Go call returning `(α, error)`: a value with a nil error, a
sentinel error (the value returned beside it is the zero value and carries no
information), or a run-time panic. -/
inductive Outcome (α : Type) where
  | ok (v : α)
  | err (e : Error)
  | panicked
  deriving DecidableEq, Repr

/-! ## metro.go: data model -/

/-- Go: `type TrackSegment struct`. -/
structure TrackSegment where
  Name : String
  deriving DecidableEq, Repr

/-- Go: `type TrackSegmentConnection struct`. -/
structure TrackSegmentConnection where
  In : List String
  Out : List String
  deriving DecidableEq, Repr

/-- Go: `type RailNetworkMap struct`; the `Segments` map is kept as its list of
key/value pairs (it is never read by the code embedded here). -/
structure RailNetworkMap where
  Segments : List (String × TrackSegment)
  Connections : List TrackSegmentConnection
  deriving DecidableEq, Repr

/-- Go: `type RouteDirection int`. -/
abbrev RouteDirection := Int

/-- Go: `OutboundDirection = iota`. -/
def OutboundDirection : RouteDirection := 0

/-- Go: `InboundDirection` (the second `iota` constant). -/
def InboundDirection : RouteDirection := 1

/-- Go: `func (rd RouteDirection) Next() RouteDirection`. -/
def RouteDirection.Next (rd : RouteDirection) : RouteDirection :=
  if rd = OutboundDirection then InboundDirection else OutboundDirection

/-- Go: `type Train struct`. -/
structure Train where
  Name : String
  CurrentSegmentName : String
  LineName : String
  Direction : RouteDirection
  deriving DecidableEq, Repr

/-- Go: `type RailLine struct`. -/
structure RailLine where
  Name : String
  StationNames : List String
  Route : RouteDirection → Option (List String)

/-- Go: the expression `rl.Route[d]`; an absent key reads as the nil slice. -/
def RailLine.route (rl : RailLine) (d : RouteDirection) : List String :=
  (rl.Route d).getD []

/-- Go: `type Platform struct`. -/
structure Platform where
  Name : String
  SegmentName : String
  deriving DecidableEq, Repr

/-- Go: `type Station struct`. -/
structure Station where
  Name : String
  Platforms : List Platform
  deriving DecidableEq, Repr

/-- Go: `type Metro struct` (without the mutex). -/
structure Metro where
  Map : RailNetworkMap
  Stations : List Station
  Lines : List RailLine
  Trains : List Train

/-! ## metro.go: `RailLine.NextSegment` -/

/-- The scan loop of `NextSegment`:
`for sIDX, segmentName := range route { if segmentName == segment { nextIDX = sIDX + 1 } }`.
`scanRoute segment rest sIDX nextIDX` runs the remaining iterations over `rest`,
starting at index `sIDX` with the current value of `nextIDX`. -/
def scanRoute (segment : String) : List String → Nat → Nat → Nat
  | [], _, nextIDX => nextIDX
  | segmentName :: rest, sIDX, nextIDX =>
    scanRoute segment rest (sIDX + 1) (if segmentName = segment then sIDX + 1 else nextIDX)

/-- Go: `func (rl RailLine) NextSegment(train Train) (Train, error)`. -/
def RailLine.NextSegment (rl : RailLine) (train : Train) : Outcome Train :=
  if train.LineName ≠ rl.Name then
    .err .ErrWrongLine
  else
    let nextIDX := scanRoute train.CurrentSegmentName (rl.route train.Direction) 0 0
    if nextIDX = 0 then
      .err .ErrNotFound
    else
      -- `if nextIDX >= len(rl.Route[train.Direction]) { flip; nextIDX = 0 }`
      let st : Train × Nat :=
        if nextIDX ≥ (rl.route train.Direction).length then
          ({ train with Direction := RouteDirection.Next train.Direction }, 0)
        else
          (train, nextIDX)
      -- recheck as route may not exist
      if st.2 ≥ (rl.route st.1.Direction).length then
        .err .ErrInvalidRoute
      else
        -- `rl.Route[train.Direction][nextIDX]`: an index out of range panics
        match (rl.route st.1.Direction)[st.2]? with
        | none => .panicked
        | some segmentName => .ok { st.1 with CurrentSegmentName := segmentName }

/-! ## metro.go: `Metro.getLineByName` and `Metro.Tick` -/

/-- The loop of `getLineByName` over the remaining lines. -/
def findLine (name : String) : List RailLine → Except Error RailLine
  | [] => .error .ErrNotFound
  | line :: rest => if line.Name = name then .ok line else findLine name rest

/-- Go: `func (m *Metro) getLineByName(name string) (RailLine, error)`. -/
def Metro.getLineByName (m : Metro) (name : String) : Except Error RailLine :=
  findLine name m.Lines

/-- The two values `ctx.Err()` can return once `ctx.Done()` is closed. -/
inductive CtxError where
  | Canceled
  | DeadlineExceeded
  deriving DecidableEq, Repr

/-- The part of a `context.Context` that `Tick` observes.  `done n` is what the
non-blocking receive on `ctx.Done()` finds at the poll made before processing the
train at index `n`; `err` is the value of `ctx.Err()` once the signal is
triggered. -/
structure Context where
  done : Nat → Bool
  err : CtxError

/-- The non-nil errors `Tick` can return. -/
inductive TickError where
  /-- `return ctx.Err()`. -/
  | ctxErr (e : CtxError)
  /-- `fmt.Errorf("getting line %q for train %q: %w", lineName, trainName, e)`. -/
  | gettingLine (lineName trainName : String) (e : Error)
  /-- `fmt.Errorf("traversing line %q for train %q: %w", lineName, trainName, e)`. -/
  | traversingLine (lineName trainName : String) (e : Error)
  deriving DecidableEq, Repr

/-- The sentinel error a `Tick` error wraps through `%w`, if any. -/
def TickError.unwrap : TickError → Option Error
  | .ctxErr _ => none
  | .gettingLine _ _ e => some e
  | .traversingLine _ _ e => some e

/-- What a call of `Tick` does: return nil, return an error, or panic. -/
inductive TickResult where
  | nil
  | error (e : TickError)
  | panicked
  deriving DecidableEq, Repr

/-- One iteration of the loop of `Tick` after the cancellation check: resolve the
line of `train` (`lines` is `m.Lines`) and call `NextSegment`.  It gives the
`newTrain` to store, or how `Tick` ends when one of the two calls fails. -/
def tickTrain (lines : List RailLine) (train : Train) : Except TickResult Train :=
  match findLine train.LineName lines with
  | .error e => .error (.error (.gettingLine train.LineName train.Name e))
  | .ok line =>
    match line.NextSegment train with
    | .err e => .error (.error (.traversingLine line.Name train.Name e))
    | .panicked => .error .panicked
    | .ok newTrain => .ok newTrain

/-- The loop `for trainIDX, train := range m.Trains` run over the trains from
index `trainIDX` on.  It returns these trains as the loop leaves them
(`m.Trains[trainIDX] = newTrain` for the processed ones) and how the loop ended. -/
def tickLoop (ctx : Context) (lines : List RailLine) :
    Nat → List Train → List Train × TickResult
  | _, [] => ([], .nil)
  | trainIDX, train :: rest =>
    if ctx.done trainIDX then
      (train :: rest, .error (.ctxErr ctx.err))
    else
      match tickTrain lines train with
      | .error r => (train :: rest, r)
      | .ok newTrain =>
        let r := tickLoop ctx lines (trainIDX + 1) rest
        (newTrain :: r.1, r.2)

/-- Go: `func (m *Metro) Tick(ctx context.Context) error`: the aggregate after
the call and what the call returned. -/
def Metro.Tick (m : Metro) (ctx : Context) : Metro × TickResult :=
  let r := tickLoop ctx m.Lines 0 m.Trains
  ({ m with Trains := r.1 }, r.2)

/-- A context whose signal is never triggered (for instance `context.Background()`). -/
def background : Context := ⟨fun _ => false, .Canceled⟩

/-- A context whose signal is already triggered by cancellation. -/
def cancelled : Context := ⟨fun _ => true, .Canceled⟩

/-! ## Repeated calls -/

/-- `n` successive calls of `Tick` with the same context, made the way the driver
loop of `cmd/metrosrv/metrosrv.go` makes them: the next call happens only when the
previous one returned nil.  The result is the aggregate after the last call made
and what that call returned. -/
def ticks (ctx : Context) : Nat → Metro → Metro × TickResult
  | 0, m => (m, .nil)
  | n + 1, m =>
    if (m.Tick ctx).2 = .nil then ticks ctx n (m.Tick ctx).1 else m.Tick ctx

/-- `k` successive applications of `NextSegment` on the same line, each to the
train the previous one returned; the first failure ends the sequence. -/
def nextSegments (rl : RailLine) : Nat → Train → Outcome Train
  | 0, train => .ok train
  | k + 1, train =>
    match nextSegments rl k train with
    | .ok t => rl.NextSegment t
    | .err e => .err e
    | .panicked => .panicked

/-- A train is on track in a list of lines when the line `Tick` resolves for it (the
first one with its `LineName`) exists, has a non-empty Outbound and a non-empty
Inbound route, and has the train's current segment in the route for the train's
direction. -/
def OnTrack (lines : List RailLine) (t : Train) : Prop :=
  match lines.find? (fun l => decide (l.Name = t.LineName)) with
  | none => False
  | some line =>
    line.route OutboundDirection ≠ [] ∧ line.route InboundDirection ≠ [] ∧
      t.CurrentSegmentName ∈ line.route t.Direction

instance (lines : List RailLine) (t : Train) : Decidable (OnTrack lines t) := by
  unfold OnTrack
  split <;> infer_instance

/-! ## Fixtures -/

/-- A line `L` whose Outbound route visits `A` twice; it has no Inbound route. -/
def lineABAC : RailLine :=
  ⟨"L", [], fun d => if d = OutboundDirection then some ["A", "B", "A", "C"] else none⟩

/-- A train on `L` at `A`, heading Outbound. -/
def trainA : Train := ⟨"t", "A", "L", OutboundDirection⟩

/-- The line of the demo network in `cmd/metrosrv/metrosrv.go`. -/
def urmi : RailLine :=
  ⟨"urmi", ["station_0", "station_1"], fun d =>
    if d = OutboundDirection then some ["segment_0", "segment_1", "segment_2"]
    else if d = InboundDirection then some ["segment_5", "segment_4", "segment_3"]
    else none⟩

/-- A train of the demo line at the given segment and direction. -/
def urmiTrain (segment : String) (d : RouteDirection) : Train :=
  ⟨"train_0", segment, "urmi", d⟩

/-- A line `M` whose Outbound route `[A, B, A]` ends where it starts; its Inbound
route is `[Z]`. -/
def lineABA : RailLine :=
  ⟨"M", [], fun d =>
    if d = OutboundDirection then some ["A", "B", "A"]
    else if d = InboundDirection then some ["Z"]
    else none⟩

/-- A line `N` with an Outbound route only. -/
def lineOutboundOnly : RailLine :=
  ⟨"N", [], fun d => if d = OutboundDirection then some ["P", "Q"] else none⟩

/-- An aggregate with the given lines and fleet and nothing else. -/
def fleetMetro (lines : List RailLine) (trains : List Train) : Metro :=
  ⟨⟨[], []⟩, [], lines, trains⟩

/-- Three trains on the demo line: at the Outbound start, at the Outbound terminus
and in the middle of the Inbound route. -/
def urmiFleet : List Train :=
  [urmiTrain "segment_0" OutboundDirection, urmiTrain "segment_2" OutboundDirection,
    urmiTrain "segment_4" InboundDirection]

/-- A fleet whose second train reports a segment that is not on its route. -/
def lostFleet : List Train :=
  [urmiTrain "segment_0" OutboundDirection, urmiTrain "segment_9" OutboundDirection,
    urmiTrain "segment_4" InboundDirection]

/-- Go: `oneToOneSC` of `cmd/metrosrv/metrosrv.go`. -/
def oneToOneSC (a b : String) : TrackSegmentConnection := ⟨[a], [b]⟩

/-- Go: `testMetro`, the demo network of `cmd/metrosrv/metrosrv.go`. -/
def testMetro : Metro :=
  { Map :=
      { Segments :=
          [("segment_0", ⟨"segment_0"⟩), ("segment_1", ⟨"segment_1"⟩),
            ("segment_2", ⟨"segment_2"⟩), ("segment_3", ⟨"segment_0"⟩),
            ("segment_4", ⟨"segment_1"⟩), ("segment_5", ⟨"segment_2"⟩)]
        Connections :=
          [oneToOneSC "segment_0" "segment_1", oneToOneSC "segment_1" "segment_2",
            oneToOneSC "segment_5" "segment_4", oneToOneSC "segment_4" "segment_3"] }
    Stations :=
      [⟨"station_0", [⟨"station_0_platform_0", "segment_0"⟩,
          ⟨"station_0_platform_1", "segment_3"⟩]⟩,
        ⟨"station_1", [⟨"station_1_platform_0", "segment_2"⟩,
          ⟨"station_1_platform_1", "segment_5"⟩]⟩]
    Lines := [urmi]
    Trains := [urmiTrain "segment_0" OutboundDirection] }

/-- A line `loop` with Outbound route `[A, B]` and Inbound route `[B, A]`. -/
def lineLoop : RailLine :=
  ⟨"loop", [], fun d =>
    if d = OutboundDirection then some ["A", "B"]
    else if d = InboundDirection then some ["B", "A"]
    else none⟩

/-- A train of the line `loop` at the given segment and direction. -/
def loopTrain (segment : String) (d : RouteDirection) : Train :=
  ⟨"t", segment, "loop", d⟩

/-- An aggregate with one line and one train. -/
def oneTrainMetro (mp : RailNetworkMap) (st : List Station) (rl : RailLine) (t : Train) :
    Metro :=
  ⟨mp, st, [rl], [t]⟩

/-- A fleet whose second train belongs to a line that does not exist. -/
def strayFleet : List Train :=
  [urmiTrain "segment_0" OutboundDirection, ⟨"train_1", "segment_0", "ghost", OutboundDirection⟩,
    urmiTrain "segment_4" InboundDirection]

/-! ## The scan loop -/

/-- A scan over a route that never matches leaves `nextIDX` as it was. -/
theorem scanRoute_of_not_mem (segment : String) (l : List String) (sIDX nextIDX : Nat)
    (h : segment ∉ l) : scanRoute segment l sIDX nextIDX = nextIDX := by
  induction l generalizing sIDX nextIDX with
  | nil => rfl
  | cons x rest ih =>
    have hx : x ≠ segment := fun e => h (by simp [e])
    have hr : segment ∉ rest := fun e => h (by simp [e])
    simp [scanRoute, hx, ih _ _ hr]

/-- The scan returns one more than the index of the last match. -/
theorem scanRoute_of_last (segment : String) (l : List String) (sIDX nextIDX j : Nat)
    (hj : l[j]? = some segment) (hlast : ∀ k, j < k → l[k]? ≠ some segment) :
    scanRoute segment l sIDX nextIDX = sIDX + j + 1 := by
  induction l generalizing sIDX nextIDX j with
  | nil => simp at hj
  | cons x rest ih =>
    cases j with
    | zero =>
      have hx : x = segment := by simpa using hj
      have hr : segment ∉ rest := by
        intro hmem
        obtain ⟨k, hk⟩ := List.getElem?_of_mem hmem
        exact hlast (k + 1) (Nat.succ_pos k) (by simpa using hk)
      simp [scanRoute, hx, scanRoute_of_not_mem _ _ _ _ hr]
    | succ j0 =>
      have hj0 : rest[j0]? = some segment := by simpa using hj
      have hl0 : ∀ k, j0 < k → rest[k]? ≠ some segment := by
        intro k hk
        have := hlast (k + 1) (Nat.succ_lt_succ hk)
        simpa using this
      rw [scanRoute, ih _ _ j0 hj0 hl0]
      omega

/-- A scan that starts with `nextIDX ≤ sIDX` either leaves `nextIDX` alone or
returns a value in `(sIDX, sIDX + len]`. -/
theorem scanRoute_range (segment : String) (l : List String) (sIDX nextIDX : Nat) :
    scanRoute segment l sIDX nextIDX = nextIDX ∨
      (sIDX < scanRoute segment l sIDX nextIDX ∧
        scanRoute segment l sIDX nextIDX ≤ sIDX + l.length) := by
  induction l generalizing sIDX nextIDX with
  | nil => exact Or.inl rfl
  | cons x rest ih =>
    rw [scanRoute]
    rcases ih (sIDX + 1) (if x = segment then sIDX + 1 else nextIDX) with h | ⟨h1, h2⟩
    · rw [h]
      by_cases hx : x = segment
      · right; simp [hx]
      · left; simp [hx]
    · right
      simp only [List.length_cons]
      omega

/-- From `nextIDX = 0` the scan returns `0` exactly when nothing matches. -/
theorem scanRoute_eq_zero_iff (segment : String) (l : List String) :
    scanRoute segment l 0 0 = 0 ↔ segment ∉ l := by
  constructor
  · intro h hmem
    -- take the last match
    have : ∀ (l : List String) (sIDX nextIDX : Nat), segment ∈ l →
        sIDX < scanRoute segment l sIDX nextIDX := by
      intro l
      induction l with
      | nil => intro _ _ hm; simp at hm
      | cons x rest ih =>
        intro sIDX nextIDX hm
        rw [scanRoute]
        by_cases hr : segment ∈ rest
        · have := ih (sIDX + 1) (if x = segment then sIDX + 1 else nextIDX) hr
          omega
        · have hx : x = segment := by
            rcases List.mem_cons.mp hm with e | e
            · exact e.symm
            · exact absurd e hr
          rw [scanRoute_of_not_mem _ _ _ _ hr]
          simp [hx]
    have := this l 0 0 hmem
    omega
  · exact scanRoute_of_not_mem segment l 0 0

/-- The scan from `0` never returns more than the length of the route. -/
theorem scanRoute_le_length (segment : String) (l : List String) :
    scanRoute segment l 0 0 ≤ l.length := by
  rcases scanRoute_range segment l 0 0 with h | ⟨_, h⟩
  · rw [h]; exact Nat.zero_le _
  · simpa using h

/-- The scan runs off the end of the route exactly when the final entry matches. -/
theorem scanRoute_eq_length_iff (segment : String) (l : List String) (sIDX nextIDX : Nat)
    (hn : nextIDX ≤ sIDX) (hl : l ≠ []) :
    scanRoute segment l sIDX nextIDX = sIDX + l.length ↔ l.getLast? = some segment := by
  induction l generalizing sIDX nextIDX with
  | nil => exact absurd rfl hl
  | cons x rest ih =>
    rw [scanRoute]
    cases rest with
    | nil =>
      by_cases hx : x = segment
      · simp [scanRoute, hx]
      · simp [scanRoute, hx]; omega
    | cons y rest2 =>
      have hn2 : (if x = segment then sIDX + 1 else nextIDX) ≤ sIDX + 1 := by
        split <;> omega
      have h := ih (sIDX + 1) _ hn2 (by simp)
      rw [List.getLast?_cons_cons, ← h]
      simp only [List.length_cons]
      constructor <;> intro e <;> omega

/-! ## `NextSegment` case by case -/

/-- On the right line, when the last match is at index `j` and `j + 1` is in
bounds, `NextSegment` moves the train to entry `j + 1` and keeps its direction. -/
theorem NextSegment_advance (rl : RailLine) (train : Train) (j : Nat)
    (hname : train.LineName = rl.Name)
    (hj : (rl.route train.Direction)[j]? = some train.CurrentSegmentName)
    (hlast : ∀ k, j < k → (rl.route train.Direction)[k]? ≠ some train.CurrentSegmentName)
    (hlt : j + 1 < (rl.route train.Direction).length) :
    rl.NextSegment train =
      .ok { train with CurrentSegmentName := (rl.route train.Direction)[j + 1] } := by
  have hscan := scanRoute_of_last train.CurrentSegmentName _ 0 0 j hj hlast
  simp only [Nat.zero_add] at hscan
  unfold RailLine.NextSegment
  have hn : ¬ (train.LineName ≠ rl.Name) := not_not.mpr hname
  simp only [hn, if_false, hscan]
  have h1 : ¬ (j + 1 = 0) := Nat.succ_ne_zero j
  have h2 : ¬ (j + 1 ≥ (rl.route train.Direction).length) := Nat.not_le.mpr hlt
  simp only [h1, h2, if_false, List.getElem?_eq_getElem hlt]

/-- On the right line, when the final entry of the route matches, `NextSegment`
flips the direction and moves the train to entry `0` of the new direction's
route, or fails with `ErrInvalidRoute` when that route has no entry. -/
theorem NextSegment_terminus (rl : RailLine) (train : Train)
    (hname : train.LineName = rl.Name)
    (hend : (rl.route train.Direction).getLast? = some train.CurrentSegmentName) :
    rl.NextSegment train =
      match rl.route (RouteDirection.Next train.Direction) with
      | [] => .err .ErrInvalidRoute
      | s :: _ => .ok { train with
          Direction := RouteDirection.Next train.Direction, CurrentSegmentName := s } := by
  have hne : rl.route train.Direction ≠ [] := by
    intro e; rw [e] at hend; simp at hend
  have hscan := (scanRoute_eq_length_iff train.CurrentSegmentName _ 0 0 (Nat.le_refl 0) hne).mpr hend
  simp only [Nat.zero_add] at hscan
  have hpos : (rl.route train.Direction).length ≠ 0 := by
    intro e; exact hne (List.length_eq_zero.mp e)
  have hn : ¬ (train.LineName ≠ rl.Name) := not_not.mpr hname
  unfold RailLine.NextSegment
  simp only [hn, if_false, hscan, hpos, ge_iff_le, le_refl, if_true]
  cases hr : rl.route (RouteDirection.Next train.Direction) with
  | nil => simp
  | cons s rest => simp

/-- A segment that does not occur after index `i` matches at no later index. -/
theorem no_later_match (segment : String) (l : List String) (i : Nat)
    (h : segment ∉ l.drop (i + 1)) : ∀ k, i < k → l[k]? ≠ some segment := by
  intro k hk hseg
  apply h
  have hd : (l.drop (i + 1))[k - (i + 1)]? = some segment := by
    rw [List.getElem?_drop]
    have : i + 1 + (k - (i + 1)) = k := by omega
    rw [this]; exact hseg
  exact List.getElem?_mem hd

/-! ## The tick loop -/

/-- `NextSegment` reads the route only at an index below its length. -/
theorem NextSegment_ne_panicked (rl : RailLine) (train : Train) :
    rl.NextSegment train ≠ .panicked := by
  intro h
  unfold RailLine.NextSegment at h
  dsimp only at h
  by_cases h1 : train.LineName ≠ rl.Name
  · rw [if_pos h1] at h; cases h
  · rw [if_neg h1] at h
    by_cases h2 : scanRoute train.CurrentSegmentName (rl.route train.Direction) 0 0 = 0
    · rw [if_pos h2] at h; cases h
    · rw [if_neg h2] at h
      generalize (if scanRoute train.CurrentSegmentName (rl.route train.Direction) 0 0 ≥
          (rl.route train.Direction).length then
        (({ train with Direction := RouteDirection.Next train.Direction } : Train), 0)
        else (train, scanRoute train.CurrentSegmentName (rl.route train.Direction) 0 0)) = st at h
      by_cases h3 : st.2 ≥ (rl.route st.1.Direction).length
      · rw [if_pos h3] at h; cases h
      · rw [if_neg h3] at h
        rw [List.getElem?_eq_getElem (Nat.not_le.mp h3)] at h
        cases h

/-- `getLineByName` returns the first line, in `Lines` order, with the given name. -/
theorem findLine_eq_find (name : String) (lines : List RailLine) :
    findLine name lines =
      match lines.find? (fun l => decide (l.Name = name)) with
      | some line => .ok line
      | none => .error .ErrNotFound := by
  induction lines with
  | nil => rfl
  | cons line rest ih =>
    by_cases h : line.Name = name
    · simp [findLine, List.find?, h]
    · simp [findLine, List.find?, h, ih]

/-- A line returned by `getLineByName` has the name asked for. -/
theorem findLine_name (name : String) (lines : List RailLine) (line : RailLine)
    (h : findLine name lines = .ok line) : line.Name = name := by
  induction lines with
  | nil => cases h
  | cons l rest ih =>
    by_cases hl : l.Name = name
    · simp [findLine, hl] at h
      rw [← h]; exact hl
    · simp only [findLine, hl, if_false] at h
      exact ih h

/-- An iteration succeeds exactly when the first line with the train's `LineName`
exists and `NextSegment` on it succeeds. -/
theorem tickTrain_ok_iff (lines : List RailLine) (t t' : Train) :
    tickTrain lines t = .ok t' ↔
      ∃ line, lines.find? (fun l => decide (l.Name = t.LineName)) = some line ∧
        line.NextSegment t = .ok t' := by
  unfold tickTrain
  rw [findLine_eq_find]
  cases hf : lines.find? (fun l => decide (l.Name = t.LineName)) with
  | none => simp
  | some line =>
    cases hn : line.NextSegment t with
    | ok v => simp [hn]
    | err e => simp [hn]
    | panicked => simp [hn]

/-- A failing iteration ends `Tick` with an error return, never a panic. -/
theorem tickTrain_error (lines : List RailLine) (t : Train) (r : TickResult)
    (h : tickTrain lines t = .error r) : ∃ e, r = .error e := by
  unfold tickTrain at h
  split at h
  · cases h; exact ⟨_, rfl⟩
  · split at h
    · cases h; exact ⟨_, rfl⟩
    · rename_i hp; exact absurd hp (NextSegment_ne_panicked _ _)
    · cases h

/-- The loop never changes the number of trains. -/
theorem tickLoop_length (ctx : Context) (lines : List RailLine) (n : Nat) (ts : List Train) :
    (tickLoop ctx lines n ts).1.length = ts.length := by
  induction ts generalizing n with
  | nil => rfl
  | cons t rest ih =>
    unfold tickLoop
    split
    · rfl
    · split
      · rfl
      · simp [ih]

/-- With the signal triggered at the first poll the loop stops at once. -/
theorem tickLoop_cancelled (ctx : Context) (lines : List RailLine) (n : Nat) (t : Train)
    (rest : List Train) (h : ctx.done n = true) :
    tickLoop ctx lines n (t :: rest) = (t :: rest, .error (.ctxErr ctx.err)) := by
  simp [tickLoop, h]

/-- The loop at a train whose iteration fails. -/
theorem tickLoop_cons_error (ctx : Context) (lines : List RailLine) (n : Nat) (t : Train)
    (rest : List Train) (r : TickResult) (hc : ctx.done n = false)
    (ht : tickTrain lines t = .error r) :
    tickLoop ctx lines n (t :: rest) = (t :: rest, r) := by
  simp [tickLoop, hc, ht]

/-- The loop at a train whose iteration succeeds. -/
theorem tickLoop_cons_ok (ctx : Context) (lines : List RailLine) (n : Nat) (t t' : Train)
    (rest : List Train) (hc : ctx.done n = false) (ht : tickTrain lines t = .ok t') :
    tickLoop ctx lines n (t :: rest) =
      (t' :: (tickLoop ctx lines (n + 1) rest).1, (tickLoop ctx lines (n + 1) rest).2) := by
  simp [tickLoop, hc, ht]

/-- When every iteration succeeds the loop returns nil and has stored every
`newTrain` at the index of its train. -/
theorem tickLoop_ok (ctx : Context) (lines : List RailLine) (n : Nat) (ts : List Train)
    (hctx : ∀ i, i < ts.length → ctx.done (n + i) = false)
    (h : ∀ t ∈ ts, ∃ t', tickTrain lines t = .ok t') :
    (tickLoop ctx lines n ts).2 = .nil ∧
      ∀ (i : Nat) (t : Train), ts[i]? = some t →
        ∃ t', tickTrain lines t = .ok t' ∧ ((tickLoop ctx lines n ts).1)[i]? = some t' := by
  induction ts generalizing n with
  | nil => exact ⟨rfl, by simp⟩
  | cons t rest ih =>
    obtain ⟨t', ht'⟩ := h t (by simp)
    have hc : ctx.done n = false := by simpa using hctx 0 (by simp)
    have hrest := ih (n + 1)
      (fun i hi => by
        have := hctx (i + 1) (by simpa using hi)
        rwa [Nat.add_assoc, Nat.add_comm 1 i])
      (fun x hx => h x (by simp [hx]))
    rw [tickLoop_cons_ok ctx lines n t t' rest hc ht']
    refine ⟨hrest.1, ?_⟩
    intro i x hx
    cases i with
    | zero =>
      have : t = x := by simpa using hx
      subst this
      exact ⟨t', ht', by simp⟩
    | succ i0 =>
      have hx0 : rest[i0]? = some x := by simpa using hx
      obtain ⟨x', hx', hres⟩ := hrest.2 i0 x hx0
      exact ⟨x', hx', by simpa using hres⟩

/-- When the iteration at index `k` is the first to fail, the loop ends with that
iteration's result, the trains below `k` hold their `newTrain`, and the trains from
`k` on are untouched. -/
theorem tickLoop_fail (ctx : Context) (lines : List RailLine) (n : Nat) (ts : List Train)
    (k : Nat) (tk : Train) (r : TickResult)
    (hctx : ∀ i, i ≤ k → ctx.done (n + i) = false)
    (hk : ts[k]? = some tk) (hfail : tickTrain lines tk = .error r)
    (hmin : ∀ i t, i < k → ts[i]? = some t → ∃ t', tickTrain lines t = .ok t') :
    (tickLoop ctx lines n ts).2 = r ∧
      (∀ i t, i < k → ts[i]? = some t →
        ∃ t', tickTrain lines t = .ok t' ∧ ((tickLoop ctx lines n ts).1)[i]? = some t') ∧
      (∀ i, k ≤ i → ((tickLoop ctx lines n ts).1)[i]? = ts[i]?) := by
  induction ts generalizing n k with
  | nil => simp at hk
  | cons t rest ih =>
    have hc : ctx.done n = false := by simpa using hctx 0 (Nat.zero_le k)
    cases k with
    | zero =>
      have : t = tk := by simpa using hk
      subst this
      rw [tickLoop_cons_error ctx lines n t rest r hc hfail]
      exact ⟨rfl, fun i _ hi => absurd hi (Nat.not_lt_zero i), fun _ _ => rfl⟩
    | succ k0 =>
      obtain ⟨t', ht'⟩ := hmin 0 t (Nat.succ_pos k0) (by simp)
      have hrest := ih (n + 1) k0
        (fun i hi => by
          have := hctx (i + 1) (Nat.succ_le_succ hi)
          rwa [Nat.add_assoc, Nat.add_comm 1 i])
        (by simpa using hk)
        (fun i x hi hx => hmin (i + 1) x (Nat.succ_lt_succ hi) (by simpa using hx))
      rw [tickLoop_cons_ok ctx lines n t t' rest hc ht']
      refine ⟨hrest.1, ?_, ?_⟩
      · intro i x hi hx
        cases i with
        | zero =>
          have : t = x := by simpa using hx
          subst this
          exact ⟨t', ht', by simp⟩
        | succ i0 =>
          obtain ⟨x', hx', hres⟩ :=
            hrest.2.1 i0 x (Nat.lt_of_succ_lt_succ hi) (by simpa using hx)
          exact ⟨x', hx', by simpa using hres⟩
      · intro i hi
        cases i with
        | zero => exact absurd hi (Nat.not_succ_le_zero k0)
        | succ i0 =>
          have := hrest.2.2 i0 (Nat.le_of_succ_le_succ hi)
          simpa using this

/-- After the loop every entry is either the train it was or the `newTrain` of
that train's successful iteration. -/
theorem tickLoop_entry (ctx : Context) (lines : List RailLine) (n : Nat) (ts : List Train)
    (i : Nat) (t : Train) (h : ts[i]? = some t) :
    ((tickLoop ctx lines n ts).1)[i]? = some t ∨
      ∃ t', tickTrain lines t = .ok t' ∧ ((tickLoop ctx lines n ts).1)[i]? = some t' := by
  induction ts generalizing n i with
  | nil => simp at h
  | cons t0 rest ih =>
    unfold tickLoop
    split
    · exact Or.inl h
    · split
      · exact Or.inl h
      · rename_i newTrain hnew
        cases i with
        | zero =>
          have : t0 = t := by simpa using h
          subst this
          exact Or.inr ⟨newTrain, hnew, by simp⟩
        | succ i0 =>
          have h0 : rest[i0]? = some t := by simpa using h
          rcases ih (n + 1) i0 h0 with hl | ⟨t', ht', hr⟩
          · exact Or.inl (by simpa using hl)
          · exact Or.inr ⟨t', ht', by simpa using hr⟩

/-- The route read by the code is empty exactly when the map has no entry for the
direction or an empty one. -/
theorem route_eq_nil_iff (rl : RailLine) (d : RouteDirection) :
    rl.route d = [] ↔ rl.Route d = none ∨ rl.Route d = some [] := by
  unfold RailLine.route
  cases rl.Route d with
  | none => simp
  | some l => simp

/-- `NextSegment` fails with `ErrInvalidRoute` only from the final entry of the route. -/
theorem getLast_of_invalidRoute (rl : RailLine) (train : Train)
    (h : rl.NextSegment train = .err .ErrInvalidRoute) :
    (rl.route train.Direction).getLast? = some train.CurrentSegmentName := by
  unfold RailLine.NextSegment at h
  dsimp only at h
  by_cases h1 : train.LineName ≠ rl.Name
  · rw [if_pos h1] at h; cases h
  · rw [if_neg h1] at h
    by_cases h2 : scanRoute train.CurrentSegmentName (rl.route train.Direction) 0 0 = 0
    · rw [if_pos h2] at h; cases h
    · rw [if_neg h2] at h
      by_cases h3 : scanRoute train.CurrentSegmentName (rl.route train.Direction) 0 0 ≥
          (rl.route train.Direction).length
      · have hle := scanRoute_le_length train.CurrentSegmentName (rl.route train.Direction)
        have heq : scanRoute train.CurrentSegmentName (rl.route train.Direction) 0 0 =
            0 + (rl.route train.Direction).length := by omega
        have hne : rl.route train.Direction ≠ [] := by
          intro e
          rw [e] at h2
          exact h2 rfl
        exact (scanRoute_eq_length_iff _ _ 0 0 (Nat.le_refl 0) hne).mp heq
      · rw [if_neg h3] at h
        dsimp only at h
        rw [if_neg h3, List.getElem?_eq_getElem (Nat.not_le.mp h3)] at h
        cases h

/-- An iteration whose line lookup finds nothing ends `Tick` with the wrapped
`ErrNotFound` of `getLineByName`. -/
theorem tickTrain_of_find_none (lines : List RailLine) (t : Train)
    (h : lines.find? (fun l => decide (l.Name = t.LineName)) = none) :
    tickTrain lines t = .error (.error (.gettingLine t.LineName t.Name .ErrNotFound)) := by
  unfold tickTrain
  rw [findLine_eq_find, h]

/-- An iteration whose `NextSegment` call fails ends `Tick` with that error, wrapped. -/
theorem tickTrain_of_err (lines : List RailLine) (t : Train) (line : RailLine) (e : Error)
    (h : lines.find? (fun l => decide (l.Name = t.LineName)) = some line)
    (hn : line.NextSegment t = .err e) :
    tickTrain lines t = .error (.error (.traversingLine line.Name t.Name e)) := by
  unfold tickTrain
  rw [findLine_eq_find, h]
  dsimp only
  rw [hn]

/-! ## Claims about `NextSegment` -/

/-- C1 (as stated, refuted): on `L` with Outbound route `[A, B, A, C]` the train at
`A` matches index `0`, which is not the last index, yet `NextSegment` does not move
it to entry `1` (`B`): the scan keeps the last match, index `2`, and the train goes
to `C`. -/
theorem C1_counterexample :
    trainA.LineName = lineABAC.Name ∧
    0 + 1 < (lineABAC.route trainA.Direction).length ∧
    (lineABAC.route trainA.Direction)[0]? = some trainA.CurrentSegmentName ∧
    (lineABAC.route trainA.Direction)[0 + 1]? = some "B" ∧
    lineABAC.NextSegment trainA ≠ .ok { trainA with CurrentSegmentName := "B" } ∧
    lineABAC.NextSegment trainA = .ok { trainA with CurrentSegmentName := "C" } := by
  decide

/-- C1 (amended): for every line, every train whose `LineName` equals the line's
`Name`, and every index `i` that is not the last index of the route for the train's
direction: if the route entry at `i` equals the train's current segment and that
segment does not occur again after index `i`, then `NextSegment` succeeds and
returns the train with `CurrentSegmentName` equal to the route entry at `i + 1`
and `Direction` (and everything else) unchanged. -/
theorem C1_nextSegment_advances (rl : RailLine) (train : Train) (i : Nat)
    (hname : train.LineName = rl.Name)
    (hi : i + 1 < (rl.route train.Direction).length)
    (hseg : (rl.route train.Direction)[i]? = some train.CurrentSegmentName)
    (hlast : train.CurrentSegmentName ∉ (rl.route train.Direction).drop (i + 1)) :
    rl.NextSegment train =
      .ok { train with CurrentSegmentName := (rl.route train.Direction)[i + 1] } :=
  NextSegment_advance rl train i hname hseg (no_later_match _ _ i hlast) hi

/-- C1 (amended), on the duplicate route: from the last `A` (index `2`) the train
moves to `C`. -/
theorem C1_nextSegment_advances_witness :
    lineABAC.NextSegment trainA = .ok { trainA with CurrentSegmentName := "C" } :=
  C1_nextSegment_advances lineABAC trainA 2 (by decide) (by decide) (by decide) (by decide)

/-- C2: for every line and every train whose `LineName` equals the line's `Name`,
if the train's current segment equals the last entry of the route for its direction
`d` and the route for `d.Next()` is non-empty, then `NextSegment` succeeds and
returns the train with `Direction = d.Next()` and `CurrentSegmentName` equal to
entry `0` of the route for `d.Next()`. -/
theorem C2_nextSegment_flips_at_terminus (rl : RailLine) (train : Train)
    (hname : train.LineName = rl.Name)
    (hend : (rl.route train.Direction).getLast? = some train.CurrentSegmentName)
    (hne : 0 < (rl.route (RouteDirection.Next train.Direction)).length) :
    rl.NextSegment train =
      .ok { train with
        Direction := RouteDirection.Next train.Direction,
        CurrentSegmentName := (rl.route (RouteDirection.Next train.Direction))[0] } := by
  rw [NextSegment_terminus rl train hname hend]
  generalize rl.route (RouteDirection.Next train.Direction) = r at hne ⊢
  cases r with
  | nil => simp at hne
  | cons s rest => rfl

/-- C2 on the demo line: at `segment_2`, the Outbound terminus, the train flips to
Inbound and moves to `segment_5`. -/
theorem C2_nextSegment_flips_at_terminus_witness :
    urmi.NextSegment (urmiTrain "segment_2" OutboundDirection) =
      .ok (urmiTrain "segment_5" InboundDirection) :=
  C2_nextSegment_flips_at_terminus urmi (urmiTrain "segment_2" OutboundDirection)
    (by decide) (by decide) (by decide)

/-- C6: for every line and every train whose `LineName` equals the line's `Name`,
`NextSegment` fails with `ErrNotFound` if and only if the train's current segment
does not occur anywhere in the route for the train's direction; in particular it
fails so when that route is absent from the map or empty. -/
theorem C6_notFound_iff (rl : RailLine) (train : Train)
    (hname : train.LineName = rl.Name) :
    (rl.NextSegment train = .err .ErrNotFound ↔
      train.CurrentSegmentName ∉ rl.route train.Direction) ∧
    (rl.Route train.Direction = none ∨ rl.Route train.Direction = some [] →
      rl.NextSegment train = .err .ErrNotFound) := by
  have hn : ¬ (train.LineName ≠ rl.Name) := not_not.mpr hname
  have key : rl.NextSegment train = .err .ErrNotFound ↔
      train.CurrentSegmentName ∉ rl.route train.Direction := by
    rw [← scanRoute_eq_zero_iff]
    constructor
    · intro h
      by_contra h2
      by_cases hend : (rl.route train.Direction).getLast? = some train.CurrentSegmentName
      · rw [NextSegment_terminus rl train hname hend] at h
        split at h <;> cases h
      · unfold RailLine.NextSegment at h
        dsimp only at h
        rw [if_neg hn, if_neg h2] at h
        by_cases h3 : scanRoute train.CurrentSegmentName (rl.route train.Direction) 0 0 ≥
            (rl.route train.Direction).length
        · rw [if_pos h3] at h
          dsimp only at h
          split at h
          · cases h
          · split at h <;> cases h
        · rw [if_neg h3] at h
          dsimp only at h
          rw [if_neg h3, List.getElem?_eq_getElem (Nat.not_le.mp h3)] at h
          cases h
    · intro h
      unfold RailLine.NextSegment
      dsimp only
      rw [if_neg hn, if_pos h]
  refine ⟨key, fun h => key.mpr ?_⟩
  rw [(route_eq_nil_iff rl train.Direction).mpr h]
  exact List.not_mem_nil _

/-- C6 on the demo line: `segment_9` is not on the Outbound route, and a train
heading in a direction the map has no route for is not found either. -/
theorem C6_notFound_iff_witness :
    urmi.NextSegment (urmiTrain "segment_9" OutboundDirection) = .err .ErrNotFound ∧
    urmi.NextSegment (urmiTrain "segment_0" 7) = .err .ErrNotFound :=
  ⟨(C6_notFound_iff urmi (urmiTrain "segment_9" OutboundDirection) (by decide)).1.mpr
      (by decide),
    (C6_notFound_iff urmi (urmiTrain "segment_0" 7) (by decide)).2 (Or.inl (by decide))⟩

/-- C7: for every line and every train whose `LineName` equals the line's `Name`,
`NextSegment` fails with `ErrInvalidRoute` if and only if the train's current
segment is the final entry of the route for its direction `d` (its last occurrence
is at the final index) and the route for `d.Next()` is absent or empty. -/
theorem C7_invalidRoute_iff (rl : RailLine) (train : Train)
    (hname : train.LineName = rl.Name) :
    rl.NextSegment train = .err .ErrInvalidRoute ↔
      (rl.route train.Direction).getLast? = some train.CurrentSegmentName ∧
      (rl.Route (RouteDirection.Next train.Direction) = none ∨
        rl.Route (RouteDirection.Next train.Direction) = some []) := by
  rw [← route_eq_nil_iff]
  constructor
  · intro h
    have hend := getLast_of_invalidRoute rl train h
    refine ⟨hend, ?_⟩
    rw [NextSegment_terminus rl train hname hend] at h
    split at h
    · assumption
    · cases h
  · rintro ⟨hend, hnil⟩
    rw [NextSegment_terminus rl train hname hend, hnil]

/-- C7 on a line with an Outbound route only: at the Outbound terminus `Q` the
flip finds no Inbound route. -/
theorem C7_invalidRoute_iff_witness :
    lineOutboundOnly.NextSegment ⟨"t", "Q", "N", OutboundDirection⟩ = .err .ErrInvalidRoute :=
  (C7_invalidRoute_iff lineOutboundOnly ⟨"t", "Q", "N", OutboundDirection⟩ (by decide)).mpr
    ⟨by decide, Or.inl (by decide)⟩

/-- C8: last-match tie-break.  For every line and every train on it whose current
segment occurs more than once in the route for its direction, with `j` the largest
index at which it occurs: the result of `NextSegment` is the route entry at `j + 1`
with direction unchanged when `j + 1` is in bounds, and the terminus flip (entry
`0` of the route for the flipped direction, `ErrInvalidRoute` when there is none)
otherwise.  The result is a function of `j` alone, whatever the earlier
occurrences are (so the statement needs no assumption on how many there are). -/
theorem C8_last_match_wins (rl : RailLine) (train : Train) (j : Nat)
    (hname : train.LineName = rl.Name)
    (hj : (rl.route train.Direction)[j]? = some train.CurrentSegmentName)
    (hlast : train.CurrentSegmentName ∉ (rl.route train.Direction).drop (j + 1)) :
    rl.NextSegment train =
      match (rl.route train.Direction)[j + 1]? with
      | some s => .ok { train with CurrentSegmentName := s }
      | none =>
        match rl.route (RouteDirection.Next train.Direction) with
        | [] => .err .ErrInvalidRoute
        | s :: _ => .ok { train with
            Direction := RouteDirection.Next train.Direction, CurrentSegmentName := s } := by
  have hjlt : j < (rl.route train.Direction).length := by
    by_contra hge
    rw [List.getElem?_eq_none (Nat.not_lt.mp hge)] at hj
    cases hj
  by_cases hlt : j + 1 < (rl.route train.Direction).length
  · rw [NextSegment_advance rl train j hname hj (no_later_match _ _ j hlast) hlt,
      List.getElem?_eq_getElem hlt]
  · have hend : (rl.route train.Direction).getLast? = some train.CurrentSegmentName := by
      rw [List.getLast?_eq_getElem?, ← hj]
      congr 1
      omega
    rw [NextSegment_terminus rl train hname hend,
      List.getElem?_eq_none (Nat.not_lt.mp hlt)]

/-- C8 on the routes `[A, B, A, C]` and `[A, B, A]`: from `A` the train goes to `C`
(after the second `A`), and on the second line, where the second `A` is the
terminus, it flips to Inbound and goes to `Z`; it never goes to `B`. -/
theorem C8_last_match_wins_witness :
    1 < (lineABAC.route OutboundDirection).count "A" ∧
    1 < (lineABA.route OutboundDirection).count "A" ∧
    lineABAC.NextSegment trainA = .ok { trainA with CurrentSegmentName := "C" } ∧
    lineABA.NextSegment ⟨"t", "A", "M", OutboundDirection⟩ =
      .ok ⟨"t", "Z", "M", InboundDirection⟩ :=
  ⟨by decide, by decide,
    C8_last_match_wins lineABAC trainA 2 (by decide) (by decide) (by decide),
    C8_last_match_wins lineABA ⟨"t", "A", "M", OutboundDirection⟩ 2
      (by decide) (by decide) (by decide)⟩

/-! ## Claims about `Tick` -/

/-- C3: for every Metro whose cancellation signal is not triggered, if for every
train of the fleet a line with the train's `LineName` exists and `NextSegment` on
the first such line (in `Lines` order) succeeds, then `Tick` returns no error, the
fleet keeps its length, and at every index `i` the fleet then holds exactly the
train `NextSegment` returned for the pre-tick train at index `i`. -/
theorem C3_tick_advances_every_train (m : Metro) (ctx : Context)
    (hctx : ∀ n, ctx.done n = false)
    (h : ∀ t ∈ m.Trains, ∃ line t',
      m.Lines.find? (fun l => decide (l.Name = t.LineName)) = some line ∧
        line.NextSegment t = .ok t') :
    (m.Tick ctx).2 = .nil ∧
    (m.Tick ctx).1.Trains.length = m.Trains.length ∧
    ∀ (i : Nat) (t : Train), m.Trains[i]? = some t →
      ∃ line t', m.Lines.find? (fun l => decide (l.Name = t.LineName)) = some line ∧
        line.NextSegment t = .ok t' ∧ (m.Tick ctx).1.Trains[i]? = some t' := by
  have hok := tickLoop_ok ctx m.Lines 0 m.Trains (fun i _ => hctx _)
    (fun t ht => by
      obtain ⟨line, t', hl, hn⟩ := h t ht
      exact ⟨t', (tickTrain_ok_iff m.Lines t t').mpr ⟨line, hl, hn⟩⟩)
  refine ⟨hok.1, tickLoop_length ctx m.Lines 0 m.Trains, ?_⟩
  intro i t hi
  obtain ⟨t', ht', hres⟩ := hok.2 i t hi
  obtain ⟨line, hl, hn⟩ := (tickTrain_ok_iff m.Lines t t').mp ht'
  exact ⟨line, t', hl, hn, hres⟩

/-- C3 on the demo line with three trains: one tick returns nil and moves the
trains to `segment_1`/Outbound, `segment_5`/Inbound (a flip) and
`segment_3`/Inbound, in fleet order. -/
theorem C3_tick_advances_every_train_witness :
    ((fleetMetro [urmi] urmiFleet).Tick background).2 = .nil ∧
    ((fleetMetro [urmi] urmiFleet).Tick background).1.Trains =
      [urmiTrain "segment_1" OutboundDirection, urmiTrain "segment_5" InboundDirection,
        urmiTrain "segment_3" InboundDirection] :=
  ⟨(C3_tick_advances_every_train (fleetMetro [urmi] urmiFleet) background (fun _ => rfl)
      (by
        intro t ht
        simp only [fleetMetro, urmiFleet, List.mem_cons, List.mem_singleton,
          List.not_mem_nil, or_false] at ht
        rcases ht with rfl | rfl | rfl
        · exact ⟨urmi, urmiTrain "segment_1" OutboundDirection, rfl, by decide⟩
        · exact ⟨urmi, urmiTrain "segment_5" InboundDirection, rfl, by decide⟩
        · exact ⟨urmi, urmiTrain "segment_3" InboundDirection, rfl, by decide⟩)).1,
    by decide⟩

/-- C4: `Tick` is fail-fast and non-transactional.  For every Metro whose
cancellation signal is not triggered, if `k` is the smallest fleet index whose
train's line lookup or `NextSegment` call fails, then `Tick` returns an error, every
train at an index below `k` has been replaced by its `NextSegment` result, and every
train at index `k` or above is exactly as it was before the tick. -/
theorem C4_tick_fail_fast (m : Metro) (ctx : Context) (k : Nat) (tk : Train)
    (hctx : ∀ n, ctx.done n = false)
    (hk : m.Trains[k]? = some tk)
    (hfail : m.Lines.find? (fun l => decide (l.Name = tk.LineName)) = none ∨
      ∃ line e, m.Lines.find? (fun l => decide (l.Name = tk.LineName)) = some line ∧
        line.NextSegment tk = .err e)
    (hmin : ∀ (i : Nat) (t : Train), i < k → m.Trains[i]? = some t →
      ∃ line t', m.Lines.find? (fun l => decide (l.Name = t.LineName)) = some line ∧
        line.NextSegment t = .ok t') :
    (∃ e, (m.Tick ctx).2 = .error e) ∧
    (∀ (i : Nat) (t : Train), i < k → m.Trains[i]? = some t →
      ∃ line t', m.Lines.find? (fun l => decide (l.Name = t.LineName)) = some line ∧
        line.NextSegment t = .ok t' ∧ (m.Tick ctx).1.Trains[i]? = some t') ∧
    (∀ (i : Nat), k ≤ i → (m.Tick ctx).1.Trains[i]? = m.Trains[i]?) := by
  have hr : ∃ e, tickTrain m.Lines tk = .error (.error e) := by
    rcases hfail with hnone | ⟨line, e, hl, hn⟩
    · exact ⟨_, tickTrain_of_find_none m.Lines tk hnone⟩
    · exact ⟨_, tickTrain_of_err m.Lines tk line e hl hn⟩
  obtain ⟨e, he⟩ := hr
  have hloop := tickLoop_fail ctx m.Lines 0 m.Trains k tk (.error e) (fun i _ => hctx _) hk he
    (fun i t hi ht => by
      obtain ⟨line, t', hl, hn⟩ := hmin i t hi ht
      exact ⟨t', (tickTrain_ok_iff m.Lines t t').mpr ⟨line, hl, hn⟩⟩)
  refine ⟨⟨e, hloop.1⟩, ?_, hloop.2.2⟩
  intro i t hi ht
  obtain ⟨t', ht', hres⟩ := hloop.2.1 i t hi ht
  obtain ⟨line, hl, hn⟩ := (tickTrain_ok_iff m.Lines t t').mp ht'
  exact ⟨line, t', hl, hn, hres⟩

/-- C4 on the demo line: the second of three trains reports `segment_9`; the tick
returns an error, the first train has moved to `segment_1`, and the second and
third trains are as before (the third would have advanced). -/
theorem C4_tick_fail_fast_witness :
    (∃ e, ((fleetMetro [urmi] lostFleet).Tick background).2 = .error e) ∧
    ((fleetMetro [urmi] lostFleet).Tick background).1.Trains =
      [urmiTrain "segment_1" OutboundDirection, urmiTrain "segment_9" OutboundDirection,
        urmiTrain "segment_4" InboundDirection] :=
  ⟨(C4_tick_fail_fast (fleetMetro [urmi] lostFleet) background 1
      (urmiTrain "segment_9" OutboundDirection) (fun _ => rfl) (by decide)
      (Or.inr ⟨urmi, .ErrNotFound, rfl, by decide⟩)
      (by
        intro i t hi ht
        have hi0 : i = 0 := by omega
        subst hi0
        have hte : urmiTrain "segment_0" OutboundDirection = t := by
          simpa [fleetMetro, lostFleet] using ht
        subst hte
        exact ⟨urmi, urmiTrain "segment_1" OutboundDirection, rfl, by decide⟩)).1,
    by decide⟩

/-- C5: for every line and every train whose `LineName` differs from the line's
`Name`, `NextSegment` fails with `ErrWrongLine`, whatever the routes and the train's
segment and direction are; and whenever the `NextSegment` call that `Tick` makes for
a train fails (with `ErrWrongLine` or any other error), that train's entry in the
fleet is the same after `Tick` as before. -/
theorem C5_wrongLine (rl : RailLine) (train : Train) (hne : train.LineName ≠ rl.Name) :
    rl.NextSegment train = .err .ErrWrongLine ∧
    ∀ (m : Metro) (ctx : Context) (k : Nat) (t : Train) (line : RailLine) (e : Error),
      m.Trains[k]? = some t → m.getLineByName t.LineName = .ok line →
      line.NextSegment t = .err e → (m.Tick ctx).1.Trains[k]? = some t := by
  constructor
  · unfold RailLine.NextSegment
    rw [if_pos hne]
  · intro m ctx k t line e hk hl hn
    have hfail : tickTrain m.Lines t = .error (.error (.traversingLine line.Name t.Name e)) := by
      unfold tickTrain
      have hl2 : findLine t.LineName m.Lines = .ok line := hl
      rw [hl2]
      dsimp only
      rw [hn]
    rcases tickLoop_entry ctx m.Lines 0 m.Trains k t hk with h | ⟨t', ht', _⟩
    · exact h
    · rw [hfail] at ht'
      cases ht'

/-- C5 on the demo line: a train of line `other` is refused by `urmi`, and the
train whose call fails inside `Tick` (index `1` of the fleet) keeps its entry. -/
theorem C5_wrongLine_witness :
    urmi.NextSegment ⟨"t", "segment_0", "other", OutboundDirection⟩ = .err .ErrWrongLine ∧
    ((fleetMetro [urmi] lostFleet).Tick background).1.Trains[1]? =
      some (urmiTrain "segment_9" OutboundDirection) :=
  ⟨(C5_wrongLine urmi ⟨"t", "segment_0", "other", OutboundDirection⟩ (by decide)).1,
    (C5_wrongLine urmi ⟨"t", "segment_0", "other", OutboundDirection⟩ (by decide)).2
      (fleetMetro [urmi] lostFleet) background 1 (urmiTrain "segment_9" OutboundDirection)
      urmi .ErrNotFound (by decide) rfl (by decide)⟩

/-- C9: for every Metro whose cancellation signal is not triggered, if `k` is the
first fleet index that fails and the failure is that no line in `Lines` has the name
of train `k`'s `LineName`, then `Tick` returns the error built by
`fmt.Errorf("getting line ...: %w", ..., ErrNotFound)`, which wraps `ErrNotFound`. -/
theorem C9_tick_wraps_notFound (m : Metro) (ctx : Context) (k : Nat) (tk : Train)
    (hctx : ∀ n, ctx.done n = false)
    (hk : m.Trains[k]? = some tk)
    (hnone : ∀ line ∈ m.Lines, line.Name ≠ tk.LineName)
    (hmin : ∀ (i : Nat) (t : Train), i < k → m.Trains[i]? = some t →
      ∃ line t', m.Lines.find? (fun l => decide (l.Name = t.LineName)) = some line ∧
        line.NextSegment t = .ok t') :
    (m.Tick ctx).2 = .error (.gettingLine tk.LineName tk.Name .ErrNotFound) ∧
    ∃ e, (m.Tick ctx).2 = .error e ∧ e.unwrap = some .ErrNotFound := by
  have hfind : m.Lines.find? (fun l => decide (l.Name = tk.LineName)) = none := by
    rw [List.find?_eq_none]
    intro line hline
    simpa using hnone line hline
  have hloop := tickLoop_fail ctx m.Lines 0 m.Trains k tk _ (fun i _ => hctx _) hk
    (tickTrain_of_find_none m.Lines tk hfind)
    (fun i t hi ht => by
      obtain ⟨line, t', hl, hn⟩ := hmin i t hi ht
      exact ⟨t', (tickTrain_ok_iff m.Lines t t').mpr ⟨line, hl, hn⟩⟩)
  exact ⟨hloop.1, _, hloop.1, rfl⟩

/-- C9 on the demo line: the second train belongs to the line `ghost`, which does
not exist; the tick fails with the wrapped `ErrNotFound` naming that line and train. -/
theorem C9_tick_wraps_notFound_witness :
    ((fleetMetro [urmi] strayFleet).Tick background).2 =
      .error (.gettingLine "ghost" "train_1" .ErrNotFound) :=
  (C9_tick_wraps_notFound (fleetMetro [urmi] strayFleet) background 1
    ⟨"train_1", "segment_0", "ghost", OutboundDirection⟩ (fun _ => rfl) (by decide)
    (by
      intro line hline
      have hl : line = urmi := by simpa [fleetMetro] using hline
      subst hl
      decide)
    (by
      intro i t hi ht
      have hi0 : i = 0 := by omega
      subst hi0
      have hte : urmiTrain "segment_0" OutboundDirection = t := by
        simpa [fleetMetro, strayFleet] using ht
      subst hte
      exact ⟨urmi, urmiTrain "segment_1" OutboundDirection, rfl, by decide⟩)).1

/-- C10: for every Metro with at least 2 trains, `Tick` invoked with an
already-cancelled signal processes zero trains: it returns the cancellation error
`ctx.Err()` and the aggregate (so the fleet) after the call equals the one before,
even when some train would have failed or advanced. -/
theorem C10_tick_already_cancelled (m : Metro) (ctx : Context)
    (h2 : 2 ≤ m.Trains.length) (hc : ctx.done 0 = true) :
    (m.Tick ctx).2 = .error (.ctxErr ctx.err) ∧ (m.Tick ctx).1 = m := by
  cases hts : m.Trains with
  | nil => rw [hts] at h2; simp at h2
  | cons t rest =>
    have hloop := tickLoop_cancelled ctx m.Lines 0 t rest hc
    unfold Metro.Tick
    dsimp only
    rw [hts, hloop]
    refine ⟨rfl, ?_⟩
    rw [← hts]

/-- C10 on the demo line: of three trains one would advance and one would fail;
with the signal already triggered the tick returns `Canceled` and the fleet is as
before. -/
theorem C10_tick_already_cancelled_witness :
    ((fleetMetro [urmi] lostFleet).Tick cancelled).2 = .error (.ctxErr .Canceled) ∧
    ((fleetMetro [urmi] lostFleet).Tick cancelled).1.Trains = lostFleet :=
  ⟨(C10_tick_already_cancelled (fleetMetro [urmi] lostFleet) cancelled (by decide) rfl).1,
    congrArg Metro.Trains
      (C10_tick_already_cancelled (fleetMetro [urmi] lostFleet) cancelled (by decide) rfl).2⟩

/-! ## What a call can return -/

/-- A train returned by `NextSegment` was asked of its own line, keeps its `Name`
and `LineName`, heads in the old direction or its flip, and sits on a segment of the
route for the direction it now has. -/
theorem NextSegment_ok_inv (rl : RailLine) (t t' : Train) (h : rl.NextSegment t = .ok t') :
    t.LineName = rl.Name ∧ t'.Name = t.Name ∧ t'.LineName = t.LineName ∧
    (t'.Direction = t.Direction ∨ t'.Direction = RouteDirection.Next t.Direction) ∧
    t'.CurrentSegmentName ∈ rl.route t'.Direction := by
  unfold RailLine.NextSegment at h
  dsimp only at h
  by_cases h1 : t.LineName ≠ rl.Name
  · rw [if_pos h1] at h; cases h
  · rw [if_neg h1] at h
    by_cases h2 : scanRoute t.CurrentSegmentName (rl.route t.Direction) 0 0 = 0
    · rw [if_pos h2] at h; cases h
    · rw [if_neg h2] at h
      by_cases h3 : scanRoute t.CurrentSegmentName (rl.route t.Direction) 0 0 ≥
          (rl.route t.Direction).length
      · rw [if_pos h3] at h
        dsimp only at h
        by_cases h4 : 0 ≥ (rl.route (RouteDirection.Next t.Direction)).length
        · rw [if_pos h4] at h; cases h
        · rw [if_neg h4, List.getElem?_eq_getElem (Nat.not_le.mp h4)] at h
          cases h
          exact ⟨not_not.mp h1, rfl, rfl, Or.inr rfl, List.getElem_mem _⟩
      · rw [if_neg h3] at h
        dsimp only at h
        rw [if_neg h3, List.getElem?_eq_getElem (Nat.not_le.mp h3)] at h
        cases h
        exact ⟨not_not.mp h1, rfl, rfl, Or.inl rfl, List.getElem_mem _⟩

/-- On the right line `NextSegment` can fail only with `ErrNotFound` or
`ErrInvalidRoute`. -/
theorem NextSegment_err_cases (rl : RailLine) (t : Train) (e : Error)
    (hname : t.LineName = rl.Name) (h : rl.NextSegment t = .err e) :
    e = .ErrNotFound ∨ e = .ErrInvalidRoute := by
  have hn : ¬ (t.LineName ≠ rl.Name) := not_not.mpr hname
  unfold RailLine.NextSegment at h
  dsimp only at h
  rw [if_neg hn] at h
  by_cases h2 : scanRoute t.CurrentSegmentName (rl.route t.Direction) 0 0 = 0
  · rw [if_pos h2] at h; cases h; exact Or.inl rfl
  · rw [if_neg h2] at h
    generalize (if scanRoute t.CurrentSegmentName (rl.route t.Direction) 0 0 ≥
        (rl.route t.Direction).length then
      (({ t with Direction := RouteDirection.Next t.Direction } : Train), 0)
      else (t, scanRoute t.CurrentSegmentName (rl.route t.Direction) 0 0)) = st at h
    by_cases h3 : st.2 ≥ (rl.route st.1.Direction).length
    · rw [if_pos h3] at h; cases h; exact Or.inr rfl
    · rw [if_neg h3, List.getElem?_eq_getElem (Nat.not_le.mp h3)] at h
      cases h

/-- A failing iteration of the loop of `Tick` returns an error that wraps
`ErrNotFound` or `ErrInvalidRoute`. -/
theorem tickTrain_error_cases (lines : List RailLine) (t : Train) (r : TickResult)
    (h : tickTrain lines t = .error r) :
    ∃ e, r = .error e ∧ (e.unwrap = some .ErrNotFound ∨ e.unwrap = some .ErrInvalidRoute) := by
  unfold tickTrain at h
  cases hf : findLine t.LineName lines with
  | error e0 =>
    rw [hf] at h
    have he0 : e0 = .ErrNotFound := by
      rw [findLine_eq_find] at hf
      split at hf
      · cases hf
      · cases hf; rfl
    cases h
    exact ⟨_, rfl, Or.inl (by rw [he0]; rfl)⟩
  | ok line =>
    rw [hf] at h
    dsimp only at h
    have hname := findLine_name t.LineName lines line hf
    cases hn : line.NextSegment t with
    | ok v => rw [hn] at h; cases h
    | panicked => exact absurd hn (NextSegment_ne_panicked _ _)
    | err e1 =>
      rw [hn] at h
      cases h
      rcases NextSegment_err_cases line t e1 hname.symm hn with h1 | h1
      · exact ⟨_, rfl, Or.inl (by rw [h1]; rfl)⟩
      · exact ⟨_, rfl, Or.inr (by rw [h1]; rfl)⟩

/-- The loop of `Tick` ends by returning nil, by returning `ctx.Err()`, or with the
result of a failing iteration. -/
theorem tickLoop_result (ctx : Context) (lines : List RailLine) (n : Nat) (ts : List Train) :
    (tickLoop ctx lines n ts).2 = .nil ∨
    (tickLoop ctx lines n ts).2 = .error (.ctxErr ctx.err) ∨
    ∃ t ∈ ts, tickTrain lines t = .error (tickLoop ctx lines n ts).2 := by
  induction ts generalizing n with
  | nil => exact Or.inl rfl
  | cons t rest ih =>
    by_cases hc : ctx.done n = true
    · rw [tickLoop_cancelled ctx lines n t rest hc]
      exact Or.inr (Or.inl rfl)
    · have hc2 : ctx.done n = false := by simpa using hc
      cases ht : tickTrain lines t with
      | error r =>
        rw [tickLoop_cons_error ctx lines n t rest r hc2 ht]
        exact Or.inr (Or.inr ⟨t, by simp, ht⟩)
      | ok t' =>
        rw [tickLoop_cons_ok ctx lines n t t' rest hc2 ht]
        rcases ih (n + 1) with h | h | ⟨x, hx, hxe⟩
        · exact Or.inl h
        · exact Or.inr (Or.inl h)
        · exact Or.inr (Or.inr ⟨x, by simp [hx], hxe⟩)

/-! ## Claims about what `Tick` and `NextSegment` leave alone and can return -/

/-- C13: `Tick` changes nothing but train positions.  For every Metro and every
way `Tick` ends (nil, an error, cancellation), `Map`, `Stations` and `Lines` are
unchanged, the fleet has the same length, and the train at every index keeps its
`Name` and `LineName`; only `CurrentSegmentName` and `Direction` can differ. -/
theorem C13_tick_frame (m : Metro) (ctx : Context) :
    (m.Tick ctx).1.Map = m.Map ∧ (m.Tick ctx).1.Stations = m.Stations ∧
    (m.Tick ctx).1.Lines = m.Lines ∧
    (m.Tick ctx).1.Trains.length = m.Trains.length ∧
    ∀ (i : Nat) (t : Train), m.Trains[i]? = some t →
      ∃ t', (m.Tick ctx).1.Trains[i]? = some t' ∧
        t'.Name = t.Name ∧ t'.LineName = t.LineName := by
  refine ⟨rfl, rfl, rfl, tickLoop_length ctx m.Lines 0 m.Trains, ?_⟩
  intro i t hi
  rcases tickLoop_entry ctx m.Lines 0 m.Trains i t hi with h | ⟨t', ht', hres⟩
  · exact ⟨t, h, rfl, rfl⟩
  · obtain ⟨line, _, hn⟩ := (tickTrain_ok_iff m.Lines t t').mp ht'
    have hinv := NextSegment_ok_inv line t t' hn
    exact ⟨t', hres, hinv.2.1, hinv.2.2.1⟩

/-- C14: `RouteDirection.Next` is the flip on the two-valued direction:
`Next(Outbound) = Inbound` and `Next(Inbound) = Outbound`, so for every direction `d`
of the enumeration `Next(d)` differs from `d` and `Next(Next(d)) = d`. -/
theorem C14_next_is_flip (d : RouteDirection)
    (hd : d = OutboundDirection ∨ d = InboundDirection) :
    RouteDirection.Next OutboundDirection = InboundDirection ∧
    RouteDirection.Next InboundDirection = OutboundDirection ∧
    RouteDirection.Next d ≠ d ∧ RouteDirection.Next (RouteDirection.Next d) = d := by
  rcases hd with rfl | rfl <;> decide

/-- C14 at `Inbound`. -/
theorem C14_next_is_flip_witness :
    RouteDirection.Next InboundDirection ≠ InboundDirection ∧
    RouteDirection.Next (RouteDirection.Next InboundDirection) = InboundDirection :=
  (C14_next_is_flip InboundDirection (Or.inr rfl)).2.2

/-- C16: `NextSegment` never indexes a route out of bounds.  For every line (its
routes may be empty or missing) and every train (its `Direction` may be any
integer), the call returns a train or one of the three sentinel errors and never
panics; and a returned train was read at an index strictly below the length of the
route for the direction it then has. -/
theorem C16_nextSegment_never_panics (rl : RailLine) (train : Train) :
    rl.NextSegment train ≠ .panicked ∧
    ((∃ t', rl.NextSegment train = .ok t') ∨ rl.NextSegment train = .err .ErrNotFound ∨
      rl.NextSegment train = .err .ErrWrongLine ∨
      rl.NextSegment train = .err .ErrInvalidRoute) ∧
    ∀ t', rl.NextSegment train = .ok t' →
      ∃ i, ∃ (hi : i < (rl.route t'.Direction).length),
        t'.CurrentSegmentName = (rl.route t'.Direction)[i] := by
  refine ⟨NextSegment_ne_panicked rl train, ?_, ?_⟩
  · cases h : rl.NextSegment train with
    | ok v => exact Or.inl ⟨v, rfl⟩
    | panicked => exact absurd h (NextSegment_ne_panicked rl train)
    | err e =>
      cases e with
      | ErrNotFound => exact Or.inr (Or.inl rfl)
      | ErrWrongLine => exact Or.inr (Or.inr (Or.inl rfl))
      | ErrInvalidRoute => exact Or.inr (Or.inr (Or.inr rfl))
  · intro t' h
    obtain ⟨i, hi, heq⟩ := List.getElem_of_mem (NextSegment_ok_inv rl train t' h).2.2.2.2
    exact ⟨i, hi, heq.symm⟩

/-- C17: `Tick` can never fail with `ErrWrongLine`.  For every Metro, if `Tick`
returns an error then that error is the cancellation error `ctx.Err()` or wraps
`ErrNotFound` or `ErrInvalidRoute`, and it does not wrap `ErrWrongLine`; the line
`getLineByName` hands to `NextSegment` always has the `Name` asked for, the train's
`LineName`. -/
theorem C17_tick_never_wrongLine (m : Metro) (ctx : Context) (e : TickError)
    (h : (m.Tick ctx).2 = .error e) :
    (e = .ctxErr ctx.err ∨ e.unwrap = some .ErrNotFound ∨
      e.unwrap = some .ErrInvalidRoute) ∧
    e.unwrap ≠ some .ErrWrongLine ∧
    ∀ (t : Train) (line : RailLine),
      m.getLineByName t.LineName = .ok line → line.Name = t.LineName := by
  have hcases : e = .ctxErr ctx.err ∨ e.unwrap = some .ErrNotFound ∨
      e.unwrap = some .ErrInvalidRoute := by
    have h2 : (tickLoop ctx m.Lines 0 m.Trains).2 = .error e := h
    rcases tickLoop_result ctx m.Lines 0 m.Trains with hr | hr | ⟨t, _, ht⟩
    · rw [hr] at h2; cases h2
    · rw [hr] at h2; cases h2; exact Or.inl rfl
    · obtain ⟨e', he', hw⟩ := tickTrain_error_cases m.Lines t _ ht
      rw [h2] at he'
      cases he'
      exact Or.inr hw
  refine ⟨hcases, ?_, fun t line hl => findLine_name t.LineName m.Lines line hl⟩
  rcases hcases with rfl | hw | hw
  · simp [TickError.unwrap]
  · rw [hw]; simp
  · rw [hw]; simp

/-- C17 on the demo line: the tick of the fleet whose second train reports
`segment_9` fails with an error that wraps `ErrNotFound`. -/
theorem C17_tick_never_wrongLine_witness :
    ((fleetMetro [urmi] lostFleet).Tick background).2 =
      .error (.traversingLine "urmi" "train_0" .ErrNotFound) ∧
    (TickError.traversingLine "urmi" "train_0" .ErrNotFound).unwrap ≠ some .ErrWrongLine :=
  ⟨by decide,
    (C17_tick_never_wrongLine (fleetMetro [urmi] lostFleet) background
      (.traversingLine "urmi" "train_0" .ErrNotFound) (by decide)).2.1⟩

/-- C19: for a Metro with an empty fleet, `Tick` returns nil and changes nothing
whether or not the cancellation signal is already triggered: the signal is polled
once per train, so with no train it is never polled and never reported. -/
theorem C19_tick_empty_fleet (m : Metro) (ctx : Context) (hempty : m.Trains = []) :
    (m.Tick ctx).2 = .nil ∧ (m.Tick ctx).1 = m := by
  unfold Metro.Tick
  dsimp only
  rw [hempty]
  refine ⟨rfl, ?_⟩
  show ({ m with Trains := [] } : Metro) = m
  rw [← hempty]

/-- C19 with the signal already triggered: the tick of an empty fleet returns nil. -/
theorem C19_tick_empty_fleet_witness :
    cancelled.done 0 = true ∧
    ((fleetMetro [urmi] []).Tick cancelled).2 = .nil ∧
    ((fleetMetro [urmi] []).Tick cancelled).1.Trains = [] :=
  ⟨rfl, (C19_tick_empty_fleet (fleetMetro [urmi] []) cancelled rfl).1,
    congrArg Metro.Trains (C19_tick_empty_fleet (fleetMetro [urmi] []) cancelled rfl).2⟩

/-! ## Repeated ticks of one train -/

/-- The flip of Outbound. -/
theorem next_outbound : RouteDirection.Next OutboundDirection = InboundDirection := rfl

/-- The flip of Inbound. -/
theorem next_inbound : RouteDirection.Next InboundDirection = OutboundDirection := rfl

/-- A tick of one train on its line stores what `NextSegment` returns. -/
theorem tick_oneTrain (mp : RailNetworkMap) (st : List Station) (rl : RailLine)
    (t t' : Train) (ctx : Context) (hc : ctx.done 0 = false)
    (hname : t.LineName = rl.Name) (hnext : rl.NextSegment t = .ok t') :
    (oneTrainMetro mp st rl t).Tick ctx = (oneTrainMetro mp st rl t', .nil) := by
  have ht : tickTrain [rl] t = .ok t' := by
    simp [tickTrain, findLine, hname, hnext]
  unfold Metro.Tick oneTrainMetro
  dsimp only
  rw [tickLoop_cons_ok ctx [rl] 0 t t' [] hc ht]
  rfl

/-- After a call that returned nil the next call is made. -/
theorem ticks_succ_of_nil (ctx : Context) (n : Nat) (m m' : Metro)
    (h : m.Tick ctx = (m', .nil)) : ticks ctx (n + 1) m = ticks ctx n m' := by
  rw [ticks, h]
  simp

/-- One tick of one train: `ticks` after a successful `NextSegment`. -/
theorem ticks_oneTrain (mp : RailNetworkMap) (st : List Station) (rl : RailLine)
    (t t' : Train) (ctx : Context) (n : Nat) (hc : ctx.done 0 = false)
    (hname : t.LineName = rl.Name) (hnext : rl.NextSegment t = .ok t') :
    ticks ctx (n + 1) (oneTrainMetro mp st rl t) = ticks ctx n (oneTrainMetro mp st rl t') :=
  ticks_succ_of_nil ctx n _ _ (tick_oneTrain mp st rl t t' ctx hc hname hnext)

/-- C11: the concrete scenario.  For a Metro with one line `L` with Outbound route
`[s0, s1, s2]` and Inbound route `[s5, s4, s3]` (the segments of each route pairwise
different) and one train on `L` at `s0`/Outbound, six successive ticks with the
signal not triggered all return nil and leave the train at `s1`/Outbound,
`s2`/Outbound, `s5`/Inbound, `s4`/Inbound, `s3`/Inbound and `s0`/Outbound: after 6
ticks the aggregate is what it was. -/
theorem C11_six_tick_cycle (mp : RailNetworkMap) (st : List Station) (rl : RailLine)
    (nm s0 s1 s2 s3 s4 s5 : String) (ctx : Context)
    (hctx : ∀ n, ctx.done n = false)
    (hO : rl.route OutboundDirection = [s0, s1, s2])
    (hI : rl.route InboundDirection = [s5, s4, s3])
    (hdO : [s0, s1, s2].Nodup) (hdI : [s5, s4, s3].Nodup) :
    ticks ctx 1 (oneTrainMetro mp st rl ⟨nm, s0, rl.Name, OutboundDirection⟩) =
      (oneTrainMetro mp st rl ⟨nm, s1, rl.Name, OutboundDirection⟩, .nil) ∧
    ticks ctx 2 (oneTrainMetro mp st rl ⟨nm, s0, rl.Name, OutboundDirection⟩) =
      (oneTrainMetro mp st rl ⟨nm, s2, rl.Name, OutboundDirection⟩, .nil) ∧
    ticks ctx 3 (oneTrainMetro mp st rl ⟨nm, s0, rl.Name, OutboundDirection⟩) =
      (oneTrainMetro mp st rl ⟨nm, s5, rl.Name, InboundDirection⟩, .nil) ∧
    ticks ctx 4 (oneTrainMetro mp st rl ⟨nm, s0, rl.Name, OutboundDirection⟩) =
      (oneTrainMetro mp st rl ⟨nm, s4, rl.Name, InboundDirection⟩, .nil) ∧
    ticks ctx 5 (oneTrainMetro mp st rl ⟨nm, s0, rl.Name, OutboundDirection⟩) =
      (oneTrainMetro mp st rl ⟨nm, s3, rl.Name, InboundDirection⟩, .nil) ∧
    ticks ctx 6 (oneTrainMetro mp st rl ⟨nm, s0, rl.Name, OutboundDirection⟩) =
      (oneTrainMetro mp st rl ⟨nm, s0, rl.Name, OutboundDirection⟩, .nil) := by
  simp only [List.nodup_cons, List.mem_cons, List.mem_singleton, List.not_mem_nil,
    not_or, List.nodup_nil, and_true, not_false_eq_true] at hdO hdI
  obtain ⟨⟨h01, h02⟩, h12⟩ := hdO
  obtain ⟨⟨h54, h53⟩, h43⟩ := hdI
  have hc := hctx 0
  have e1 : rl.NextSegment ⟨nm, s0, rl.Name, OutboundDirection⟩ =
      .ok ⟨nm, s1, rl.Name, OutboundDirection⟩ := by
    rw [NextSegment_advance rl _ 0 rfl (by simp [hO])
      (no_later_match _ _ 0 (by simp [hO, h01, h02])) (by simp [hO])]
    simp [hO]
  have e2 : rl.NextSegment ⟨nm, s1, rl.Name, OutboundDirection⟩ =
      .ok ⟨nm, s2, rl.Name, OutboundDirection⟩ := by
    rw [NextSegment_advance rl _ 1 rfl (by simp [hO])
      (no_later_match _ _ 1 (by simp [hO, h12])) (by simp [hO])]
    simp [hO]
  have e3 : rl.NextSegment ⟨nm, s2, rl.Name, OutboundDirection⟩ =
      .ok ⟨nm, s5, rl.Name, InboundDirection⟩ := by
    rw [NextSegment_terminus rl _ rfl (by simp [hO])]
    simp [next_outbound, hI]
  have e4 : rl.NextSegment ⟨nm, s5, rl.Name, InboundDirection⟩ =
      .ok ⟨nm, s4, rl.Name, InboundDirection⟩ := by
    rw [NextSegment_advance rl _ 0 rfl (by simp [hI])
      (no_later_match _ _ 0 (by simp [hI, h54, h53])) (by simp [hI])]
    simp [hI]
  have e5 : rl.NextSegment ⟨nm, s4, rl.Name, InboundDirection⟩ =
      .ok ⟨nm, s3, rl.Name, InboundDirection⟩ := by
    rw [NextSegment_advance rl _ 1 rfl (by simp [hI])
      (no_later_match _ _ 1 (by simp [hI, h43])) (by simp [hI])]
    simp [hI]
  have e6 : rl.NextSegment ⟨nm, s3, rl.Name, InboundDirection⟩ =
      .ok ⟨nm, s0, rl.Name, OutboundDirection⟩ := by
    rw [NextSegment_terminus rl _ rfl (by simp [hI])]
    simp [next_inbound, hO]
  have t1 := fun n => ticks_oneTrain mp st rl _ _ ctx n hc rfl e1
  have t2 := fun n => ticks_oneTrain mp st rl _ _ ctx n hc rfl e2
  have t3 := fun n => ticks_oneTrain mp st rl _ _ ctx n hc rfl e3
  have t4 := fun n => ticks_oneTrain mp st rl _ _ ctx n hc rfl e4
  have t5 := fun n => ticks_oneTrain mp st rl _ _ ctx n hc rfl e5
  have t6 := fun n => ticks_oneTrain mp st rl _ _ ctx n hc rfl e6
  refine ⟨?_, ?_, ?_, ?_, ?_, ?_⟩
  · rw [t1]; rfl
  · rw [t1, t2]; rfl
  · rw [t1, t2, t3]; rfl
  · rw [t1, t2, t3, t4]; rfl
  · rw [t1, t2, t3, t4, t5]; rfl
  · rw [t1, t2, t3, t4, t5, t6]; rfl

/-- C11 on `testMetro`, the demo network: after six ticks the train is back at
`segment_0`/Outbound, and after three it is at `segment_5`/Inbound. -/
theorem C11_six_tick_cycle_witness :
    (ticks background 6 testMetro).2 = .nil ∧
    (ticks background 6 testMetro).1.Trains = [urmiTrain "segment_0" OutboundDirection] ∧
    (ticks background 3 testMetro).1.Trains = [urmiTrain "segment_5" InboundDirection] :=
  have h := C11_six_tick_cycle testMetro.Map testMetro.Stations urmi "train_0"
    "segment_0" "segment_1" "segment_2" "segment_3" "segment_4" "segment_5" background
    (fun _ => rfl) (by decide) (by decide) (by decide) (by decide)
  ⟨congrArg Prod.snd h.2.2.2.2.2, congrArg (fun r => r.1.Trains) h.2.2.2.2.2,
    congrArg (fun r => r.1.Trains) h.2.2.1⟩

/-- C12 (as stated, refuted): on the loop Outbound `[A, B]`, Inbound `[B, A]` the
train that starts at `A`/Outbound is at segment `A` again after 3 ticks (then
heading Inbound), so 4 is not the least positive number of ticks after which its
current segment is `A`. -/
theorem C12_counterexample :
    (ticks background 3 (fleetMetro [lineLoop] [loopTrain "A" OutboundDirection])).2 = .nil ∧
    (ticks background 3 (fleetMetro [lineLoop] [loopTrain "A" OutboundDirection])).1.Trains =
      [loopTrain "A" InboundDirection] ∧
    (loopTrain "A" InboundDirection).CurrentSegmentName = "A" ∧ 0 < 3 ∧ 3 < 4 := by
  decide

/-- C12 (amended): for a Metro with one line with Outbound route `[A, B]` and
Inbound route `[B, A]` (`A` different from `B`) and one train starting at
`A`/Outbound, successive ticks with the signal not triggered return nil and leave the
train at `B`/Outbound, `B`/Inbound, `A`/Inbound and `A`/Outbound: the train is back in
its starting state (segment `A` and direction Outbound) after exactly 4 ticks, and 4
is the least positive number of ticks with that property. -/
theorem C12_two_segment_loop (mp : RailNetworkMap) (st : List Station) (rl : RailLine)
    (nm A B : String) (ctx : Context)
    (hctx : ∀ n, ctx.done n = false)
    (hO : rl.route OutboundDirection = [A, B])
    (hI : rl.route InboundDirection = [B, A])
    (hAB : A ≠ B) :
    ticks ctx 1 (oneTrainMetro mp st rl ⟨nm, A, rl.Name, OutboundDirection⟩) =
      (oneTrainMetro mp st rl ⟨nm, B, rl.Name, OutboundDirection⟩, .nil) ∧
    ticks ctx 2 (oneTrainMetro mp st rl ⟨nm, A, rl.Name, OutboundDirection⟩) =
      (oneTrainMetro mp st rl ⟨nm, B, rl.Name, InboundDirection⟩, .nil) ∧
    ticks ctx 3 (oneTrainMetro mp st rl ⟨nm, A, rl.Name, OutboundDirection⟩) =
      (oneTrainMetro mp st rl ⟨nm, A, rl.Name, InboundDirection⟩, .nil) ∧
    ticks ctx 4 (oneTrainMetro mp st rl ⟨nm, A, rl.Name, OutboundDirection⟩) =
      (oneTrainMetro mp st rl ⟨nm, A, rl.Name, OutboundDirection⟩, .nil) ∧
    ∀ k, 0 < k → k < 4 →
      (ticks ctx k (oneTrainMetro mp st rl ⟨nm, A, rl.Name, OutboundDirection⟩)).1.Trains ≠
        [⟨nm, A, rl.Name, OutboundDirection⟩] := by
  have hBA : B ≠ A := fun e => hAB e.symm
  have hc := hctx 0
  have e1 : rl.NextSegment ⟨nm, A, rl.Name, OutboundDirection⟩ =
      .ok ⟨nm, B, rl.Name, OutboundDirection⟩ := by
    rw [NextSegment_advance rl _ 0 rfl (by simp [hO])
      (no_later_match _ _ 0 (by simp [hO, hAB])) (by simp [hO])]
    simp [hO]
  have e2 : rl.NextSegment ⟨nm, B, rl.Name, OutboundDirection⟩ =
      .ok ⟨nm, B, rl.Name, InboundDirection⟩ := by
    rw [NextSegment_terminus rl _ rfl (by simp [hO])]
    simp [next_outbound, hI]
  have e3 : rl.NextSegment ⟨nm, B, rl.Name, InboundDirection⟩ =
      .ok ⟨nm, A, rl.Name, InboundDirection⟩ := by
    rw [NextSegment_advance rl _ 0 rfl (by simp [hI])
      (no_later_match _ _ 0 (by simp [hI, hBA])) (by simp [hI])]
    simp [hI]
  have e4 : rl.NextSegment ⟨nm, A, rl.Name, InboundDirection⟩ =
      .ok ⟨nm, A, rl.Name, OutboundDirection⟩ := by
    rw [NextSegment_terminus rl _ rfl (by simp [hI])]
    simp [next_inbound, hO]
  have t1 := fun n => ticks_oneTrain mp st rl _ _ ctx n hc rfl e1
  have t2 := fun n => ticks_oneTrain mp st rl _ _ ctx n hc rfl e2
  have t3 := fun n => ticks_oneTrain mp st rl _ _ ctx n hc rfl e3
  have t4 := fun n => ticks_oneTrain mp st rl _ _ ctx n hc rfl e4
  have r1 : ticks ctx 1 (oneTrainMetro mp st rl ⟨nm, A, rl.Name, OutboundDirection⟩) =
      (oneTrainMetro mp st rl ⟨nm, B, rl.Name, OutboundDirection⟩, .nil) := by
    rw [t1]; rfl
  have r2 : ticks ctx 2 (oneTrainMetro mp st rl ⟨nm, A, rl.Name, OutboundDirection⟩) =
      (oneTrainMetro mp st rl ⟨nm, B, rl.Name, InboundDirection⟩, .nil) := by
    rw [t1, t2]; rfl
  have r3 : ticks ctx 3 (oneTrainMetro mp st rl ⟨nm, A, rl.Name, OutboundDirection⟩) =
      (oneTrainMetro mp st rl ⟨nm, A, rl.Name, InboundDirection⟩, .nil) := by
    rw [t1, t2, t3]; rfl
  have r4 : ticks ctx 4 (oneTrainMetro mp st rl ⟨nm, A, rl.Name, OutboundDirection⟩) =
      (oneTrainMetro mp st rl ⟨nm, A, rl.Name, OutboundDirection⟩, .nil) := by
    rw [t1, t2, t3, t4]; rfl
  refine ⟨r1, r2, r3, r4, ?_⟩
  intro k hk0 hk4
  have hio : InboundDirection ≠ OutboundDirection := by decide
  have hk : k = 1 ∨ k = 2 ∨ k = 3 := by omega
  rcases hk with rfl | rfl | rfl
  · rw [r1]; simp [oneTrainMetro, hBA]
  · rw [r2]; simp [oneTrainMetro, hBA]
  · rw [r3]; simp [oneTrainMetro, hio]

/-- C12 (amended) on the line `loop`: after 4 ticks the train is back at
`A`/Outbound and the call returned nil. -/
theorem C12_two_segment_loop_witness :
    (ticks background 4 (oneTrainMetro ⟨[], []⟩ [] lineLoop (loopTrain "A" OutboundDirection))).2
      = .nil ∧
    (ticks background 4
      (oneTrainMetro ⟨[], []⟩ [] lineLoop (loopTrain "A" OutboundDirection))).1.Trains =
      [loopTrain "A" OutboundDirection] :=
  have h := C12_two_segment_loop ⟨[], []⟩ [] lineLoop "t" "A" "B" background
    (fun _ => rfl) (by decide) (by decide) (by decide)
  ⟨congrArg Prod.snd h.2.2.2.1, congrArg (fun r => r.1.Trains) h.2.2.2.1⟩

/-! ## No terminal state -/

/-- On a line with non-empty Outbound and Inbound routes, a train of the line whose
segment is in the route for its direction is moved by `NextSegment`. -/
theorem NextSegment_total (rl : RailLine) (t : Train)
    (hname : t.LineName = rl.Name)
    (hO : rl.route OutboundDirection ≠ []) (hI : rl.route InboundDirection ≠ [])
    (hmem : t.CurrentSegmentName ∈ rl.route t.Direction) :
    ∃ t', rl.NextSegment t = .ok t' := by
  cases h : rl.NextSegment t with
  | ok v => exact ⟨v, rfl⟩
  | panicked => exact absurd h (NextSegment_ne_panicked rl t)
  | err e =>
    exfalso
    rcases NextSegment_err_cases rl t e hname h with rfl | rfl
    · -- the scan found the segment
      have hn : ¬ (t.LineName ≠ rl.Name) := not_not.mpr hname
      have hscan : scanRoute t.CurrentSegmentName (rl.route t.Direction) 0 0 ≠ 0 :=
        fun e0 => (scanRoute_eq_zero_iff _ _).mp e0 hmem
      unfold RailLine.NextSegment at h
      dsimp only at h
      rw [if_neg hn, if_neg hscan] at h
      generalize (if scanRoute t.CurrentSegmentName (rl.route t.Direction) 0 0 ≥
          (rl.route t.Direction).length then
        (({ t with Direction := RouteDirection.Next t.Direction } : Train), 0)
        else (t, scanRoute t.CurrentSegmentName (rl.route t.Direction) 0 0)) = st at h
      by_cases h3 : st.2 ≥ (rl.route st.1.Direction).length
      · rw [if_pos h3] at h; cases h
      · rw [if_neg h3, List.getElem?_eq_getElem (Nat.not_le.mp h3)] at h
        cases h
    · -- the flipped direction has a route
      have hend := getLast_of_invalidRoute rl t h
      rw [NextSegment_terminus rl t hname hend] at h
      have hnext : rl.route (RouteDirection.Next t.Direction) ≠ [] := by
        unfold RouteDirection.Next
        split
        · exact hI
        · exact hO
      split at h
      · rename_i hnil; exact hnext hnil
      · cases h

/-- An iteration of the loop of `Tick` moves a train that is on track and leaves it
on track. -/
theorem tickTrain_onTrack (lines : List RailLine) (t : Train) (h : OnTrack lines t) :
    ∃ t', tickTrain lines t = .ok t' ∧ OnTrack lines t' := by
  unfold OnTrack at h
  cases hf : lines.find? (fun l => decide (l.Name = t.LineName)) with
  | none => rw [hf] at h; exact absurd h id
  | some line =>
    rw [hf] at h
    obtain ⟨hO, hI, hmem⟩ := h
    have hname : line.Name = t.LineName := by
      have := List.find?_some hf
      simpa using this
    obtain ⟨t', ht'⟩ := NextSegment_total line t hname.symm hO hI hmem
    have hinv := NextSegment_ok_inv line t t' ht'
    refine ⟨t', (tickTrain_ok_iff lines t t').mpr ⟨line, hf, ht'⟩, ?_⟩
    unfold OnTrack
    rw [hinv.2.2.1, hf]
    exact ⟨hO, hI, hinv.2.2.2.2⟩

/-- With the signal not triggered, the loop of `Tick` over trains that are on track
returns nil and leaves every train on track. -/
theorem tickLoop_onTrack (ctx : Context) (lines : List RailLine) (n : Nat) (ts : List Train)
    (hctx : ∀ k, ctx.done k = false) (h : ∀ t ∈ ts, OnTrack lines t) :
    (tickLoop ctx lines n ts).2 = .nil ∧ ∀ t ∈ (tickLoop ctx lines n ts).1, OnTrack lines t := by
  induction ts generalizing n with
  | nil =>
    refine ⟨rfl, ?_⟩
    intro t ht
    simp [tickLoop] at ht
  | cons t rest ih =>
    obtain ⟨t', ht', hon⟩ := tickTrain_onTrack lines t (h t (by simp))
    have hrest := ih (n + 1) (fun x hx => h x (by simp [hx]))
    rw [tickLoop_cons_ok ctx lines n t t' rest (hctx n) ht']
    refine ⟨hrest.1, ?_⟩
    intro x hx
    rcases List.mem_cons.mp hx with rfl | hx
    · exact hon
    · exact hrest.2 x hx

/-- With the signal not triggered, any number of successive ticks of a fleet that is
on track return nil and leave the fleet on track. -/
theorem ticks_onTrack (ctx : Context) (n : Nat) (m : Metro)
    (hctx : ∀ k, ctx.done k = false) (h : ∀ t ∈ m.Trains, OnTrack m.Lines t) :
    (ticks ctx n m).2 = .nil ∧ (ticks ctx n m).1.Lines = m.Lines ∧
      ∀ t ∈ (ticks ctx n m).1.Trains, OnTrack m.Lines t := by
  induction n generalizing m with
  | zero => exact ⟨rfl, rfl, h⟩
  | succ k ih =>
    have hloop := tickLoop_onTrack ctx m.Lines 0 m.Trains hctx h
    have hnil : (m.Tick ctx).2 = .nil := hloop.1
    have hstep := ih (m.Tick ctx).1 hloop.2
    rw [ticks, if_pos hnil]
    exact hstep

/-- C15 (as stated, refuted): the fleet of the demo line is on track, yet a tick with
the cancellation signal triggered does not succeed: it returns `ctx.Err()`. -/
theorem C15_counterexample :
    (∀ t ∈ (fleetMetro [urmi] urmiFleet).Trains, OnTrack (fleetMetro [urmi] urmiFleet).Lines t) ∧
    (ticks cancelled 1 (fleetMetro [urmi] urmiFleet)).2 = .error (.ctxErr .Canceled) ∧
    (ticks cancelled 1 (fleetMetro [urmi] urmiFleet)).2 ≠ .nil := by
  decide

/-- C15 (amended): no terminal state.  For every line whose Outbound and Inbound
routes are both non-empty and every train on that line whose current segment occurs
in the route for its direction, `NextSegment` succeeds and its result again is a
train of that line with its segment in the route for its (possibly flipped)
direction; hence, with the cancellation signal not triggered, for every `n`, `n`
successive ticks of a fleet of such trains all return nil (and leave such a fleet). -/
theorem C15_no_terminal_state (rl : RailLine) (t : Train)
    (hname : t.LineName = rl.Name)
    (hO : rl.route OutboundDirection ≠ []) (hI : rl.route InboundDirection ≠ [])
    (hmem : t.CurrentSegmentName ∈ rl.route t.Direction) :
    (∃ t', rl.NextSegment t = .ok t' ∧ t'.LineName = rl.Name ∧
      t'.CurrentSegmentName ∈ rl.route t'.Direction) ∧
    ∀ (m : Metro) (ctx : Context), (∀ k, ctx.done k = false) →
      (∀ x ∈ m.Trains, OnTrack m.Lines x) →
      ∀ n, (ticks ctx n m).2 = .nil ∧ ∀ x ∈ (ticks ctx n m).1.Trains, OnTrack m.Lines x := by
  constructor
  · obtain ⟨t', ht'⟩ := NextSegment_total rl t hname hO hI hmem
    have hinv := NextSegment_ok_inv rl t t' ht'
    exact ⟨t', ht', hinv.2.2.1.trans hname, hinv.2.2.2.2⟩
  · intro m ctx hctx hfleet n
    have h := ticks_onTrack ctx n m hctx hfleet
    exact ⟨h.1, h.2.2⟩

/-- C15 (amended) on the demo line: the train at the Inbound terminus `segment_3` is
moved (to `segment_0`/Outbound), and 100 successive ticks of the three-train fleet
all return nil. -/
theorem C15_no_terminal_state_witness :
    (∃ t', urmi.NextSegment (urmiTrain "segment_3" InboundDirection) = .ok t' ∧
      t'.LineName = urmi.Name ∧ t'.CurrentSegmentName ∈ urmi.route t'.Direction) ∧
    (ticks background 100 (fleetMetro [urmi] urmiFleet)).2 = .nil :=
  have h := C15_no_terminal_state urmi (urmiTrain "segment_3" InboundDirection)
    (by decide) (by decide) (by decide) (by decide)
  ⟨h.1, (h.2 (fleetMetro [urmi] urmiFleet) background (fun _ => rfl) (by decide) 100).1⟩

/-! ## The cycle of a train on a line without repeated segments -/

/-- In a route without repetition a segment matches at one index only. -/
theorem nodup_no_later (l : List String) (hnd : l.Nodup) (j : Nat) (segment : String)
    (hj : l[j]? = some segment) : ∀ k, j < k → l[k]? ≠ some segment := by
  intro k hjk hk
  obtain ⟨hklt, _⟩ := List.getElem?_eq_some.mp hk
  exact (List.nodup_iff_getElem?_ne_getElem?.mp hnd j k hjk hklt) (hj.trans hk.symm)

/-- One more application after `k` successful ones. -/
theorem nextSegments_succ (rl : RailLine) (k : Nat) (t t' : Train)
    (h : nextSegments rl k t = .ok t') :
    nextSegments rl (k + 1) t = rl.NextSegment t' := by
  rw [nextSegments, h]

/-- Along the Outbound route: after `k` applications the train that started at
entry `0` is at entry `k`, heading Outbound. -/
theorem nextSegments_outbound (rl : RailLine) (nm s0 : String)
    (hO : (rl.route OutboundDirection).Nodup)
    (hstart : (rl.route OutboundDirection)[0]? = some s0) :
    ∀ k, k < (rl.route OutboundDirection).length →
      ∃ s, (rl.route OutboundDirection)[k]? = some s ∧
        nextSegments rl k ⟨nm, s0, rl.Name, OutboundDirection⟩ =
          .ok ⟨nm, s, rl.Name, OutboundDirection⟩ := by
  intro k
  induction k with
  | zero => intro _; exact ⟨s0, hstart, rfl⟩
  | succ k ih =>
    intro hk
    obtain ⟨s, hs, hstate⟩ := ih (by omega)
    refine ⟨(rl.route OutboundDirection)[k + 1], List.getElem?_eq_getElem hk, ?_⟩
    rw [nextSegments_succ rl k _ _ hstate]
    exact NextSegment_advance rl ⟨nm, s, rl.Name, OutboundDirection⟩ k rfl hs
      (nodup_no_later _ hO k s hs) hk

/-- Along the Inbound route: after the Outbound route and `k` more applications the
train is at entry `k` of the Inbound route, heading Inbound. -/
theorem nextSegments_inbound (rl : RailLine) (nm s0 : String)
    (hO : (rl.route OutboundDirection).Nodup) (hI : (rl.route InboundDirection).Nodup)
    (hOne : 1 ≤ (rl.route OutboundDirection).length)
    (hstart : (rl.route OutboundDirection)[0]? = some s0) :
    ∀ k, k < (rl.route InboundDirection).length →
      ∃ s, (rl.route InboundDirection)[k]? = some s ∧
        nextSegments rl ((rl.route OutboundDirection).length + k)
            ⟨nm, s0, rl.Name, OutboundDirection⟩ =
          .ok ⟨nm, s, rl.Name, InboundDirection⟩ := by
  intro k
  induction k with
  | zero =>
    intro hk
    obtain ⟨n', hn'⟩ : ∃ n', (rl.route OutboundDirection).length = n' + 1 :=
      ⟨(rl.route OutboundDirection).length - 1, by omega⟩
    obtain ⟨s, hs, hstate⟩ := nextSegments_outbound rl nm s0 hO hstart n' (by omega)
    have hend : (rl.route OutboundDirection).getLast? = some s := by
      rw [List.getLast?_eq_getElem?, hn']
      exact hs
    have hstep := NextSegment_terminus rl ⟨nm, s, rl.Name, OutboundDirection⟩ rfl hend
    rw [Nat.add_zero, hn', nextSegments_succ rl n' _ _ hstate, hstep]
    have hnext : RouteDirection.Next
        (⟨nm, s, rl.Name, OutboundDirection⟩ : Train).Direction = InboundDirection := rfl
    rw [hnext]
    cases hr : rl.route InboundDirection with
    | nil => rw [hr] at hk; exact absurd hk (Nat.lt_irrefl 0)
    | cons s' rest => exact ⟨s', List.getElem?_cons_zero, rfl⟩
  | succ k ih =>
    intro hk
    obtain ⟨s, hs, hstate⟩ := ih (by omega)
    refine ⟨(rl.route InboundDirection)[k + 1], List.getElem?_eq_getElem hk, ?_⟩
    rw [← Nat.add_assoc, nextSegments_succ rl _ _ _ hstate]
    exact NextSegment_advance rl ⟨nm, s, rl.Name, InboundDirection⟩ k rfl hs
      (nodup_no_later _ hI k s hs) hk

/-- C18: cycle length.  For every line whose Outbound route has `n ≥ 1` pairwise
distinct segments and whose Inbound route has `m ≥ 1` pairwise distinct segments, a
train on that line starting at entry `0` of the Outbound route with direction
Outbound is back in exactly its starting state after `n + m` applications of
`NextSegment`, and in no smaller positive number of applications. -/
theorem C18_cycle_length (rl : RailLine) (t : Train)
    (hname : t.LineName = rl.Name) (hdir : t.Direction = OutboundDirection)
    (hO : (rl.route OutboundDirection).Nodup) (hI : (rl.route InboundDirection).Nodup)
    (hOne : 1 ≤ (rl.route OutboundDirection).length)
    (hIne : 1 ≤ (rl.route InboundDirection).length)
    (hstart : (rl.route OutboundDirection)[0]? = some t.CurrentSegmentName) :
    nextSegments rl ((rl.route OutboundDirection).length + (rl.route InboundDirection).length) t
      = .ok t ∧
    ∀ k, 0 < k →
      k < (rl.route OutboundDirection).length + (rl.route InboundDirection).length →
      nextSegments rl k t ≠ .ok t := by
  obtain ⟨nm, s0, ln, d⟩ := t
  simp only at hname hdir hstart
  subst hname hdir
  constructor
  · obtain ⟨m', hm'⟩ : ∃ m', (rl.route InboundDirection).length = m' + 1 :=
      ⟨(rl.route InboundDirection).length - 1, by omega⟩
    obtain ⟨s, hs, hstate⟩ := nextSegments_inbound rl nm s0 hO hI hOne hstart m' (by omega)
    have hend : (rl.route InboundDirection).getLast? = some s := by
      rw [List.getLast?_eq_getElem?, hm']
      exact hs
    have hstep := NextSegment_terminus rl ⟨nm, s, rl.Name, InboundDirection⟩ rfl hend
    rw [hm', ← Nat.add_assoc, nextSegments_succ rl _ _ _ hstate, hstep]
    have hnext : RouteDirection.Next
        (⟨nm, s, rl.Name, InboundDirection⟩ : Train).Direction = OutboundDirection := rfl
    rw [hnext]
    cases hr : rl.route OutboundDirection with
    | nil => rw [hr] at hOne; exact absurd hOne (by decide)
    | cons s' rest =>
      rw [hr] at hstart
      have : s' = s0 := by simpa using hstart
      subst this
      rfl
  · intro k hk0 hk hback
    by_cases hlt : k < (rl.route OutboundDirection).length
    · obtain ⟨s, hs, hstate⟩ := nextSegments_outbound rl nm s0 hO hstart k hlt
      rw [hstate] at hback
      have hss : s = s0 := by
        have := Outcome.ok.inj hback
        exact congrArg Train.CurrentSegmentName this
      rw [hss] at hs
      exact nodup_no_later _ hO 0 s0 hstart k hk0 hs
    · obtain ⟨s, _, hstate⟩ := nextSegments_inbound rl nm s0 hO hI hOne hstart
        (k - (rl.route OutboundDirection).length) (by omega)
      have hk2 : (rl.route OutboundDirection).length +
          (k - (rl.route OutboundDirection).length) = k := by omega
      rw [hk2] at hstate
      rw [hstate] at hback
      have hd : InboundDirection = OutboundDirection :=
        congrArg Train.Direction (Outcome.ok.inj hback)
      exact absurd hd (by decide)

/-- C18 on the demo line (`n = m = 3`): six applications bring the train back to
`segment_0`/Outbound, and three do not. -/
theorem C18_cycle_length_witness :
    nextSegments urmi 6 (urmiTrain "segment_0" OutboundDirection) =
      .ok (urmiTrain "segment_0" OutboundDirection) ∧
    nextSegments urmi 3 (urmiTrain "segment_0" OutboundDirection) ≠
      .ok (urmiTrain "segment_0" OutboundDirection) :=
  have h := C18_cycle_length urmi (urmiTrain "segment_0" OutboundDirection)
    (by decide) (by decide) (by decide) (by decide) (by decide) (by decide) (by decide)
  ⟨h.1, h.2 3 (by decide) (by decide)⟩

end metro
